import Mathlib

/-!
Formal model of `generate_index.py`: the per-entry metadata resolution pipeline
(`getPluginJson`), the registry diff and the surrounding batch loop (`main`).
Python dictionaries are modelled as association lists with first-key-wins lookup
and in-place update, JSON values as an inductive type, and the network as an
explicit `World` of responses.  Library codecs (base64, utf-8, dateutil) are
modelled abstractly: the world supplies fetched file contents already in decoded
form, and timestamp parsing/rendering are opaque deterministic functions.
-/

namespace GenerateIndex

/-- JSON values as produced by Python's `json.loads`.  Booleans are kept apart
from integers, but note that Python's `isinstance(x, int)` is true for `bool`
(see `isInstInt`). -/
inductive Json where
  | null
  | bool (b : Bool)
  | int (n : Int)
  | str (s : String)
  | arr (elems : List Json)
  | obj (fields : List (String × Json))

/-- A Python dict with string keys, as `json.loads` returns for a JSON object.
`json.loads` never yields duplicate keys, so the association-list operations
below agree with Python dict semantics on every object this model handles. -/
abbrev Obj := List (String × Json)

/-- Dict lookup (`d[k]` / `k in d`): first matching key. -/
def alookup {α : Type} : List (String × α) → String → Option α
  | [], _ => none
  | (k, v) :: rest, key => if k = key then some v else alookup rest key

/-- Dict update (`d[k] = v`): replace in place, append if the key is new. -/
def aset {α : Type} : List (String × α) → String → α → List (String × α)
  | [], key, v => [(key, v)]
  | (k, w) :: rest, key, v =>
    if k = key then (key, v) :: rest else (k, w) :: aset rest key v

def getKey (d : Obj) (key : String) : Option Json := alookup d key

def setKey (d : Obj) (key : String) (v : Json) : Obj := aset d key v

/-- Dict deletion (`del d[k]`). -/
def delKey (d : Obj) (key : String) : Obj := d.filter (fun kv => kv.1 != key)

def hasKey (d : Obj) (key : String) : Bool := (getKey d key).isSome

/-- Python's `isinstance(x, int)`: true for ints and for booleans. -/
def isInstInt : Json → Bool
  | .int _ => true
  | .bool _ => true
  | _ => false

/-- The numeric value Python uses when comparing a value known to satisfy
`isinstance(x, int)`; the catch-all is never reached at its use site (the
view-only floor compares a value the normalization step has already coerced). -/
def pyIntVal : Json → Int
  | .int n => n
  | .bool b => if b then 1 else 0
  | _ => 0

/-- Python's `len` on a JSON value: defined for strings, lists and dicts,
a `TypeError` (modelled as `none`) otherwise. -/
def jsonLen? : Json → Option Nat
  | .str s => some s.length
  | .arr l => some l.length
  | .obj l => some l.length
  | _ => none

/-- `s.find(p) == 0`, i.e. `p` occurs at the very start of `s`. -/
def pyStartsWith (s p : String) : Bool := p.data.isPrefixOf s.data

/-- `str.replace("\r\n", "\n")`: left-to-right, non-overlapping. -/
def crlfToLf : List Char → List Char
  | [] => []
  | '\r' :: '\n' :: rest => '\n' :: crlfToLf rest
  | c :: rest => c :: crlfToLf rest

/-- Drop a leading byte-order mark (`text[1:]` after `startswith(BOM)`). -/
def stripBom : List Char → List Char
  | '\uFEFF' :: rest => rest
  | l => l

/-- Lines 182-184: BOM strip, then CRLF normalization, in that order. -/
def normalizeReqText (t : String) : String := String.mk (crlfToLf (stripBom t.data))

/-- `re.sub("/", "_", s)`. -/
def replaceSlashes (l : List Char) : List Char :=
  l.map (fun c => if c == '/' then '_' else c)

/-- The character class `[a-zA-Z0-9_]` (`Char.isAlpha`/`isDigit` are ASCII). -/
def isWordChar (c : Char) : Bool := c.isAlpha || c.isDigit || c == '_'

/-- `re.sub("[^a-zA-Z0-9_]", "", s)`. -/
def stripNonWord (l : List Char) : List Char := l.filter isWordChar

/-- Line 211: replace `/` by `_`, then strip everything outside `[a-zA-Z0-9_]`. -/
def sanitizePath (s : String) : String :=
  String.mk (stripNonWord (replaceSlashes s.data))

/-- Abstract model of `datetime.fromtimestamp(ts, timezone.utc).isoformat()`:
a deterministic function of the timestamp; no claim inspects the exact text. -/
def isoRender (n : Int) : String := toString n

/-- The characters before the first `/`. -/
def takeTillSlash : List Char → List Char
  | [] => []
  | c :: rest => if c == '/' then [] else c :: takeTillSlash rest

/-- Line 43: `plugin["name"].split("/")[0]`. -/
def userNameOf (s : String) : String := String.mk (takeTillSlash s.data)

/-- One entry of the tag-list response (`/tags`). -/
structure TagInfo where
  name : String
  sha : String
  zipballUrl : String

/-- A release resource (`/releases/latest` or `/releases/tags/{tag}`):
the optional structured `message` field plus the fields the script reads
unconditionally.  `published_at` is carried as the epoch timestamp that
`int(parser.parse(...).timestamp())` would produce. -/
structure ReleaseResp where
  message : Option String
  tag_name : String
  published_at : Int

/-- The decoded bytes of a base64 `content` field.  `text` is the UTF-8
decoding; `json` is what `json.loads` yields on those bytes, `none` when they
are not valid JSON.  (The model does not re-implement the JSON grammar; the
world supplies the parse result alongside the text.) -/
structure Blob where
  text : String
  json : Option Json

/-- A `/contents/...` response: the optional `content` (already decoded) and
the optional `encoding` field. -/
structure ContentResp where
  content : Option Blob
  encoding : Option String

/-- The URL-shortener response `{error, url_short}`. -/
structure ShortResp where
  error : String
  url_short : String

/-- A transport-level failure (`requests.exceptions.HTTPError`) or a parsed
JSON response. -/
inductive Fetch (α : Type) where
  | err
  | ok (val : α)

/-- Everything the upstream hosting API can answer for one repository.
`contents` is keyed by the file path and the optional `?ref=` value. -/
structure RepoData where
  latest : Fetch ReleaseResp
  releaseByTag : String → Fetch ReleaseResp
  tags : Fetch (List TagInfo)
  project : Fetch Obj
  contents : String → Option String → Fetch ContentResp

/-- The external world of one run: per-repository API data, the
`URL_SHORTENER` setting (`none` when unset), the shortener's response per
submitted long URL, the listing served for a `site` entry, and the abstract
`dateutil` timestamp parser. -/
structure World where
  repos : String → RepoData
  shortenerCfg : Option String
  shorten : String → ShortResp
  sites : String → Fetch (List Json)
  parseTs : String → Int

/-- One manifest (listing.json) entry. -/
structure ManifestEntry where
  name : String
  tag : Option String
  subdir : Option String
  view_only : Bool
  auto_update : Bool
  site : Option String

/-- Result of resolving one entry: a record, an entry-scoped failure
(`return None` after a diagnostic), or an uncaught exception that propagates
out of `getPluginJson`. -/
inductive Outcome (α : Type) where
  | ok (val : α)
  | skip
  | crash (msg : String)

/-- Lines 95-99: the first tag whose `name` equals the entry's tag. -/
def findTag (t : String) : List TagInfo → Option TagInfo
  | [] => none
  | ti :: rest => if ti.name = t then some ti else findTag t rest

/-- What lines 41-105 establish before the short-URL step: the view-only flag,
the release data (present for every non-view-only path and for auto-update
view-only entries), the effective tag (`plugin['tag']` after the auto-update
branch may overwrite it), and, for non-view-only entries, the commit sha and
zipball URL of the matching tag. -/
structure Ctx1 where
  view_only : Bool
  releaseData : Option ReleaseResp
  effTag : Option String
  commit : Option String
  zip : Option String

/-- Lines 41-105: release-reference resolution followed by commit/artifact
resolution.  `skip` models the `return None` diagnostics, `crash` the
uncaught `KeyError` when a pinned entry has no `tag` in the manifest.  The
`effTag = none` branch after a successful release step is unreachable: every
non-view-only path has set a tag by then. -/
def stage1 (plugin : ManifestEntry) (w : World) : Outcome Ctx1 :=
  let repo := w.repos plugin.name
  let relStep : Outcome (Option ReleaseResp × Option String) :=
    if plugin.auto_update then
      match repo.latest with
      | .err => .skip
      | .ok rel =>
        match rel.message with
        | some "Not Found" => .skip
        | some "Bad credentials" => .skip
        | _ => .ok (some rel, some rel.tag_name)
    else if plugin.view_only then
      .ok (none, plugin.tag)
    else
      match plugin.tag with
      | none => .crash "KeyError: tag"
      | some t =>
        match repo.releaseByTag t with
        | .err => .skip
        | .ok rel =>
          if rel.message = some "Not Found" then .skip
          else .ok (some rel, some t)
  match relStep with
  | .skip => .skip
  | .crash m => .crash m
  | .ok (rel, effTag) =>
    if plugin.view_only then .ok ⟨true, rel, effTag, none, none⟩
    else
      match effTag with
      | none => .crash "KeyError: tag"
      | some t =>
        match repo.tags with
        | .err => .skip
        | .ok tagList =>
          match findTag t tagList with
          | none => .skip
          | some ti => .ok ⟨false, rel, some t, some ti.sha, some ti.zipballUrl⟩

/-- Lines 107-117: cache lookup, else ask the shortener when `URL_SHORTENER`
is set to a non-empty value; `assert shortUrl.find("http") == 0` fails as an
uncaught `AssertionError` when the response does not yield an `http...` URL.
The second component lists the long URLs actually submitted to the service. -/
def resolveShortUrl (zipUrl : String) (shortUrls : List (String × String))
    (w : World) : Outcome String × List String :=
  match alookup shortUrls zipUrl with
  | some s => (.ok s, [])
  | none =>
    match w.shortenerCfg with
    | none => (.ok "", [])
    | some url =>
      if url = "" then (.ok "", [])
      else
        let resp := w.shorten zipUrl
        let shortUrl := if resp.error = "" then resp.url_short else ""
        if pyStartsWith shortUrl "http" then (.ok shortUrl, [zipUrl])
        else (.crash "AssertionError: shortUrl", [zipUrl])

/-- Lines 127-136: the descriptor path, subdirectory-qualified when declared. -/
def descPath (plugin : ManifestEntry) : String :=
  match plugin.subdir with
  | some sd => sd ++ "/plugin.json"
  | none => "plugin.json"

/-- Lines 137-145: fetch `plugin.json`; a transport failure is entry-scoped
(`return None`), a missing `content` key is an uncaught `KeyError`, invalid
JSON is printed and re-raised (uncaught), and a non-object payload raises a
`TypeError` further down (also uncaught). -/
def fetchDescriptor (plugin : ManifestEntry) (repo : RepoData)
    (ref : Option String) : Outcome Obj :=
  match repo.contents (descPath plugin) ref with
  | .err => .skip
  | .ok resp =>
    match resp.content with
    | none => .crash "KeyError: content"
    | some blob =>
      match blob.json with
      | none => .crash "Invalid json when parsing plugin.json"
      | some (.obj d) => .ok d
      | some _ => .crash "TypeError: descriptor is not an object"

/-- Lines 148-151: the ordered README candidates; subdirectory-qualified names
first when a subdir is declared, then the root-level names. -/
def readmeNames (plugin : ManifestEntry) : List String :=
  let base := ["README.md", "README.MD", "readme.md", "README", "readme", "Readme.md"]
  match plugin.subdir with
  | some sd => (base.map (fun x => sd ++ "/" ++ x)) ++ base
  | none => base

/-- Lines 152-161: try each candidate in order; the first response carrying
both an `encoding` and a `content` key with `encoding == "base64"` wins; a
transport failure raises inside the `try` whose `except: pass` abandons the
whole loop. -/
def tryReadmes (repo : RepoData) (ref : Option String) : List String → Option String
  | [] => none
  | f :: rest =>
    match repo.contents f ref with
    | .err => none
    | .ok resp =>
      match resp.content, resp.encoding with
      | some blob, some enc =>
        if enc = "base64" then some blob.text else tryReadmes repo ref rest
      | _, _ => tryReadmes repo ref rest

/-- Lines 146-163: when `longdescription` is absent or shorter than 100
characters, backfill it from the first qualifying README.  `len` of a
non-sized value is an uncaught `TypeError`. -/
def applyReadme (plugin : ManifestEntry) (repo : RepoData) (ref : Option String)
    (d : Obj) : Outcome Obj :=
  let backfilled : Obj :=
    match tryReadmes repo ref (readmeNames plugin) with
    | some text => setKey d "longdescription" (.str text)
    | none => d
  match getKey d "longdescription" with
  | none => .ok backfilled
  | some v =>
    match jsonLen? v with
    | none => .crash "TypeError: len"
    | some n => if n < 100 then .ok backfilled else .ok d

/-- Lines 164-166: unwrap the legacy `{"plugin": ...}` envelope; a non-object
payload makes the later field assignments raise (uncaught). -/
def unwrapEnvelope (d : Obj) : Outcome Obj :=
  match getKey d "plugin" with
  | none => .ok d
  | some (.obj inner) => .ok inner
  | some _ => .crash "TypeError: envelope payload is not an object"

/-- Lines 171-186: dependency backfill.  Subdirectory-qualified file first,
root-level fallback when the first response has no `content`; any transport
failure leaves the empty string. -/
def fetchRequirements (plugin : ManifestEntry) (repo : RepoData) (t : String) : String :=
  match plugin.subdir with
  | some sd =>
    match repo.contents (sd ++ "/requirements.txt") (some t) with
    | .err => ""
    | .ok r1 =>
      match r1.content with
      | some blob => normalizeReqText blob.text
      | none =>
        match repo.contents "requirements.txt" (some t) with
        | .err => ""
        | .ok r2 =>
          match r2.content with
          | some blob => normalizeReqText blob.text
          | none => ""
  | none =>
    match repo.contents "requirements.txt" (some t) with
    | .err => ""
    | .ok r =>
      match r.content with
      | some blob => normalizeReqText blob.text
      | none => ""

/-- What lines 119-186 add on top of `Ctx1`: the project metadata, the
descriptor after README backfill and envelope unwrap, and the dependency
text. -/
structure Ctx2 where
  proj : Obj
  descriptor : Obj
  requirements : String

/-- Lines 119-186: project fetch (hard failure per entry), descriptor fetch,
README backfill, envelope unwrap, dependency backfill. -/
def stage2 (plugin : ManifestEntry) (w : World) (c1 : Ctx1) : Outcome Ctx2 :=
  let repo := w.repos plugin.name
  match repo.project with
  | .err => .skip
  | .ok proj =>
    let ref : Option String := if c1.view_only then none else c1.effTag
    match fetchDescriptor plugin repo ref with
    | .skip => .skip
    | .crash m => .crash m
    | .ok d0 =>
      match applyReadme plugin repo ref d0 with
      | .skip => .skip
      | .crash m => .crash m
      | .ok d1 =>
        match unwrapEnvelope d1 with
        | .skip => .skip
        | .crash m => .crash m
        | .ok d2 =>
          let reqs :=
            if c1.view_only then ""
            else
              match c1.effTag with
              | some t => fetchRequirements plugin repo t
              | none => ""
          .ok ⟨proj, d2, reqs⟩

/-- Line 200-201: the fixed placeholder for view-only entries. -/
def placeholderUrl : String := "https://127.0.0.1/"

/-- Lines 217-218: wrap a string-valued `api` into a one-element list. -/
def normApi (d : Obj) : Obj :=
  match getKey d "api" with
  | some (.str s) => setKey d "api" (.arr [.str s])
  | _ => d

/-- Lines 220-230: legacy/current `minimum(b|B)inary(n|N)inja(v|V)ersion`
aliasing; prefer the legacy key, coerce non-`isinstance(int)` values to 0,
delete the legacy key, default 0 when neither key is present. -/
def normMinVersion (d : Obj) : Obj :=
  match getKey d "minimumbinaryninjaversion" with
  | some v =>
    let d' :=
      if isInstInt v then setKey d "minimumBinaryNinjaVersion" v
      else setKey d "minimumBinaryNinjaVersion" (.int 0)
    delKey d' "minimumbinaryninjaversion"
  | none =>
    match getKey d "minimumBinaryNinjaVersion" with
    | some v => if isInstInt v then d else setKey d "minimumBinaryNinjaVersion" (.int 0)
    | none => setKey d "minimumBinaryNinjaVersion" (.int 0)

/-- `if key not in data: data[key] = v` (lines 232-233, 237-240). -/
def defaultKey (d : Obj) (k : String) (v : Json) : Obj :=
  if hasKey d k then d else setKey d k v

/-- Lines 235-236: default `maximumBinaryNinjaVersion` when absent or not an
`isinstance(int)` value. -/
def normMaxVersion (d : Obj) : Obj :=
  match getKey d "maximumBinaryNinjaVersion" with
  | some v => if isInstInt v then d else setKey d "maximumBinaryNinjaVersion" (.int 999999)
  | none => setKey d "maximumBinaryNinjaVersion" (.int 999999)

/-- Lines 232-240: remaining schema defaults, in source order. -/
def normDefaults (d : Obj) : Obj :=
  defaultKey
    (defaultKey
      (normMaxVersion (defaultKey d "pluginmetadataversion" (.int 2)))
      "platforms" (.arr []))
    "installinstructions" (.obj [])

/-- Lines 241-242: copy `subdir` from the manifest entry when declared. -/
def addSubdir (plugin : ManifestEntry) (d : Obj) : Obj :=
  match plugin.subdir with
  | some sd => setKey d "subdir" (.str sd)
  | none => d

/-- Lines 243-245: the view-only floor on `minimumBinaryNinjaVersion`. -/
def viewFloor (view_only : Bool) (d : Obj) : Obj :=
  if view_only then
    match getKey d "minimumBinaryNinjaVersion" with
    | some v => if pyIntVal v < 6135 then setKey d "minimumBinaryNinjaVersion" (.int 6135) else d
    | none => d
  else d

/-- Lines 188-245 after `lastUpdated` and `full_name` have been read: the pure
assembly of the final record from the unwrapped descriptor. -/
def assembleRecord (plugin : ManifestEntry) (c1 : Ctx1) (c2 : Ctx2)
    (shortUrl : String) (lastUpdated : Int) (full_name : String) : Obj :=
  let site := "https://github.com/"
  let userName := userNameOf plugin.name
  let d := setKey c2.descriptor "lastUpdated" (.int lastUpdated)
  let d := setKey d "projectUrl" (.str (site ++ plugin.name))
  let d := setKey d "projectData" (.obj (setKey c2.proj "updated_at" (.str (isoRender lastUpdated))))
  let d := setKey d "authorUrl" (.str (site ++ userName))
  let d :=
    if c1.view_only then
      setKey (setKey (setKey d "packageUrl" (.str placeholderUrl))
        "packageShortUrl" (.str placeholderUrl)) "view_only" (.bool true)
    else
      setKey (setKey (setKey d "packageUrl" (.str (c1.zip.getD "")))
        "packageShortUrl" (.str shortUrl)) "view_only" (.bool false)
  let d := setKey d "dependencies" (.str c2.requirements)
  let d := setKey d "path" (.str (sanitizePath full_name))
  let d := setKey d "commit" (match c1.commit with | some c => .str c | none => .null)
  viewFloor c1.view_only (addSubdir plugin (normDefaults (normMinVersion (normApi d))))

/-- `projectData["full_name"]` as read on line 211: a missing key is an
uncaught `KeyError`, a non-string value makes `re.sub` raise. -/
def projFullName (p : Obj) : Outcome String :=
  match getKey p "full_name" with
  | some (.str s) => .ok s
  | some _ => .crash "TypeError: full_name"
  | none => .crash "KeyError: full_name"

/-- `parser.parse(projectData["updated_at"]).timestamp()` (line 190), for
view-only entries. -/
def projUpdatedTs (w : World) (p : Obj) : Outcome Int :=
  match getKey p "updated_at" with
  | some (.str s) => .ok (w.parseTs s)
  | some _ => .crash "TypeError: updated_at"
  | none => .crash "KeyError: updated_at"

/-- Lines 189-192: `lastUpdated` from the release publish time, or from the
repository update time for view-only entries.  The `releaseData = none` case
for a non-view-only entry is unreachable. -/
def releaseLastUpdated (w : World) (c1 : Ctx1) (c2 : Ctx2) : Outcome Int :=
  if c1.view_only then projUpdatedTs w c2.proj
  else
    match c1.releaseData with
    | some rel => .ok rel.published_at
    | none => .crash "TypeError: releaseData"

/-- Lines 188-245: read `lastUpdated` and `full_name`, then assemble the
record. -/
def buildRecord (w : World) (plugin : ManifestEntry) (c1 : Ctx1) (c2 : Ctx2)
    (shortUrl : String) : Outcome Obj :=
  match releaseLastUpdated w c1 c2 with
  | .skip => .skip
  | .crash m => .crash m
  | .ok lastUpdated =>
    match projFullName c2.proj with
    | .skip => .skip
    | .crash m => .crash m
    | .ok fn => .ok (assembleRecord plugin c1 c2 shortUrl lastUpdated fn)

/-- Lines 33-39: the `site` branch.  The loop compares `plugin["name"]` to
itself, so it returns the first listed item whenever the list is non-empty;
a first item that is not an object with a `name` key raises (uncaught). -/
def siteLookup (siteUrl : String) (w : World) : Outcome Obj :=
  match w.sites siteUrl with
  | .err => .crash "site fetch failed"
  | .ok [] => .skip
  | .ok (j :: _) =>
    match j with
    | .obj kvs =>
      match getKey kvs "name" with
      | some _ => .ok kvs
      | none => .crash "KeyError: name"
    | _ => .crash "TypeError: site entry is not an object"

/-- `getPluginJson` (lines 30-248): resolve one manifest entry against the
world, consulting the short-URL cache.  The second component records every
long URL submitted to the shortening service during this call. -/
def getPluginJson (plugin : ManifestEntry) (shortUrls : List (String × String))
    (w : World) : Outcome Obj × List String :=
  match plugin.site with
  | some s => (siteLookup s w, [])
  | none =>
    match stage1 plugin w with
    | .skip => (.skip, [])
    | .crash m => (.crash m, [])
    | .ok c1 =>
      let short : Outcome String × List String :=
        match c1.zip with
        | none => (.ok "", [])
        | some z => resolveShortUrl z shortUrls w
      match short with
      | (.crash m, sub) => (.crash m, sub)
      | (.skip, sub) => (.skip, sub)
      | (.ok s, sub) =>
        match stage2 plugin w c1 with
        | .skip => (.skip, sub)
        | .crash m => (.crash m, sub)
        | .ok c2 =>
          match buildRecord w plugin c1 c2 s with
          | .skip => (.skip, sub)
          | .crash m => (.crash m, sub)
          | .ok r => (.ok r, sub)

/-- Lines 269-274: seed the short-URL cache from every prior record carrying a
non-empty `packageShortUrl`.  Non-string values of the two URL fields are not
modelled (Python would accept any sized/hashable value; every record this
program writes carries strings). -/
def seedShortUrls : List Obj → List (String × String) → Outcome (List (String × String))
  | [], acc => .ok acc
  | p :: rest, acc =>
    match getKey p "packageShortUrl" with
    | none => seedShortUrls rest acc
    | some (.str s) =>
      if s.length > 0 then
        match getKey p "packageUrl" with
        | some (.str u) => seedShortUrls rest (aset acc u s)
        | some _ => .crash "unmodelled: non-string packageUrl"
        | none => .crash "KeyError: packageUrl"
      else seedShortUrls rest acc
    | some _ => .crash "unmodelled: non-string packageShortUrl"

/-- Line 275: `oldPlugins[plugin["projectData"]["full_name"]] = plugin["lastUpdated"]`.
Missing keys are uncaught `KeyError`s; a non-string `full_name` or non-integer
`lastUpdated` is not modelled (Python would defer any failure to the later
comparison; every record this program writes satisfies both). -/
def seedOldPlugins : List Obj → List (String × Int) → Outcome (List (String × Int))
  | [], acc => .ok acc
  | p :: rest, acc =>
    match getKey p "projectData" with
    | some (.obj pd) =>
      match getKey pd "full_name" with
      | some (.str fn) =>
        match getKey p "lastUpdated" with
        | some (.int lu) => seedOldPlugins rest (aset acc fn lu)
        | some _ => .crash "unmodelled: non-int lastUpdated"
        | none => .crash "KeyError: lastUpdated"
      | some _ => .crash "unmodelled: non-string full_name"
      | none => .crash "KeyError: full_name"
    | some _ => .crash "TypeError: projectData"
    | none => .crash "KeyError: projectData"

/-- `pluginData["lastUpdated"]` as compared on line 301.  Records produced by
the resolver always carry an integer here (`record_lastUpdated_int`); Python
would raise on any other shape. -/
def lastUpdatedOf (d : Obj) : Int :=
  match getKey d "lastUpdated" with
  | some (.int n) => n
  | _ => 0

/-- Lines 286-310: classify each resolved entry as new or updated against the
prior registry, then report every prior key absent from the new name list as
removed. -/
def diffRegistry (allP : List (String × Obj)) (oldP : List (String × Int)) :
    List String × List String × List String :=
  let newList := allP.map Prod.fst
  let nu := allP.foldl (fun acc x =>
    match alookup oldP x.1 with
    | none => (acc.1 ++ [x.1], acc.2)
    | some old => if lastUpdatedOf x.2 > old then (acc.1, acc.2 ++ [x.1]) else acc) ([], [])
  let removed := (oldP.map Prod.fst).filter (fun n => !(newList.contains n))
  (nu.1, nu.2, removed)

/-- Lines 279-284: the batch loop.  A `None` result skips the entry and the
loop continues; an uncaught exception aborts the whole run. -/
def processEntries (w : World) (cache : List (String × String)) :
    List ManifestEntry → List (String × Obj) → List String →
    Outcome (List (String × Obj) × List String)
  | [], acc, sub => .ok (acc, sub)
  | e :: rest, acc, sub =>
    match getPluginJson e cache w with
    | (.ok r, s) => processEntries w cache rest (aset acc e.name r) (sub ++ s)
    | (.skip, s) => processEntries w cache rest acc (sub ++ s)
    | (.crash m, _) => .crash m

/-- The observable result of one run of `main` (with `--readmeskip`): the
registry keyed by manifest name, the three diff lists, the written
`plugins.json` list, and the URLs submitted to the shortener. -/
structure RunResult where
  registry : List (String × Obj)
  newPlugins : List String
  updatedPlugins : List String
  removedPlugins : List String
  output : List Obj
  submitted : List String

/-- Lines 267-275: build the two lookup tables from the previous registry when
the file exists (empty tables otherwise).  The source seeds both tables in a
single pass over the previous document; two passes compute the same tables and
crash exactly when the single pass would (possibly with a different message). -/
def runSeeds (prev : Option (List Obj)) :
    Outcome (List (String × String) × List (String × Int)) :=
  match prev with
  | none => .ok ([], [])
  | some ps =>
    match seedShortUrls ps [] with
    | .crash msg => .crash msg
    | .skip => .skip
    | .ok cache =>
      match seedOldPlugins ps [] with
      | .crash msg => .crash msg
      | .skip => .skip
      | .ok oldP => .ok (cache, oldP)

/-- `main` (lines 251-328, with `--readmeskip`): seed the lookup tables from
the previous registry, resolve every manifest entry, diff against the previous
run, and emit the new registry document. -/
def run (m : List ManifestEntry) (prev : Option (List Obj)) (w : World) :
    Outcome RunResult :=
  match runSeeds prev with
  | .crash msg => .crash msg
  | .skip => .skip
  | .ok (cache, oldP) =>
    match processEntries w cache m [] [] with
    | .crash msg => .crash msg
    | .skip => .skip
    | .ok (allP, sub) =>
      let d := diffRegistry allP oldP
      .ok ⟨allP, d.1, d.2.1, d.2.2, allP.map Prod.snd, sub⟩

/-- Map over a successful outcome, keeping failures. -/
def Outcome.map {α β : Type} (f : α → β) : Outcome α → Outcome β
  | .ok a => .ok (f a)
  | .skip => .skip
  | .crash m => .crash m

def Outcome.isCrash {α : Type} : Outcome α → Bool
  | .crash _ => true
  | _ => false

/-- A README candidate whose response carries both keys with base64 encoding
(the acceptance test on lines 158-159). -/
def readmeQualifies (repo : RepoData) (ref : Option String) (f : String) : Bool :=
  match repo.contents f ref with
  | .err => false
  | .ok resp => resp.content.isSome && resp.encoding == some "base64"

/-- A README candidate whose fetch succeeded but whose response does not pass
the acceptance test (the loop then moves on to the next candidate). -/
def readmeNonMatch (repo : RepoData) (ref : Option String) (f : String) : Bool :=
  match repo.contents f ref with
  | .err => false
  | .ok _ => !(readmeQualifies repo ref f)

/-- The decoded text of a qualifying README response. -/
def readmeTextOf (repo : RepoData) (ref : Option String) (f : String) : String :=
  match repo.contents f ref with
  | .ok resp =>
    match resp.content with
    | some blob => blob.text
    | none => ""
  | .err => ""

/-- The observable result of one run, without the shortener submission trace:
what claims about the written registry and the diff report inspect. -/
def runView (res : RunResult) :
    List (String × Obj) × List String × List String × List String × List Obj :=
  (res.registry, res.newPlugins, res.updatedPlugins, res.removedPlugins, res.output)

/-- Two consecutive runs over the same manifest and world: the second consumes
the registry document the first one wrote. -/
def runTwice (m : List ManifestEntry) (w : World) : Outcome RunResult :=
  match run m none w with
  | .ok res1 => run m (some res1.output) w
  | .skip => .skip
  | .crash msg => .crash msg

/-- Concrete test data: project metadata whose `full_name` matches the
manifest identifier `a/b`. -/
def projAB : Obj := [("full_name", .str "a/b"), ("updated_at", .str "2020-01-01")]

/-- Concrete test data: project metadata whose `full_name` differs in case
from the manifest identifier `a/b`. -/
def projUpper : Obj := [("full_name", .str "A/b"), ("updated_at", .str "2020-01-01")]

/-- A view-only repository serving an empty descriptor at the root. -/
def repoView (proj : Obj) : RepoData :=
  ⟨.err, fun _ => .err, .err, .ok proj,
   fun p r =>
     if p = "plugin.json" ∧ r = none then
       .ok ⟨some ⟨"", some (.obj [])⟩, some "base64"⟩
     else .ok ⟨none, none⟩⟩

def wView : World :=
  ⟨fun _ => repoView projAB, none, fun _ => ⟨"", ""⟩, fun _ => .err, fun _ => 77⟩

def wMismatch : World :=
  ⟨fun _ => repoView projUpper, none, fun _ => ⟨"", ""⟩, fun _ => .err, fun _ => 77⟩

def eView : ManifestEntry := ⟨"a/b", none, none, true, false, none⟩

/-- A pinned (non-auto, non-view) repository with one tag `v1` and a
configurable descriptor and README behaviour at ref `v1`. -/
def repoTag (zipUrl : String) (descJson : Option Json) (readme : Fetch ContentResp) :
    RepoData :=
  ⟨.err, fun t => if t = "v1" then .ok ⟨none, "v1", 100⟩ else .err,
   .ok [⟨"v1", "sha1", zipUrl⟩], .ok projAB,
   fun p r =>
     if p = "plugin.json" ∧ r = some "v1" then
       .ok ⟨some ⟨"", descJson⟩, some "base64"⟩
     else if p = "README.md" ∧ r = some "v1" then readme
     else .ok ⟨none, none⟩⟩

def eTag : ManifestEntry := ⟨"a/b", some "v1", none, false, false, none⟩

def wTag : World :=
  ⟨fun _ => repoTag "https://z/v1.zip" (some (.obj [("minimumbinaryninjaversion", .int 42)]))
     (.ok ⟨none, none⟩),
   none, fun _ => ⟨"", ""⟩, fun _ => .err, fun _ => 77⟩

/-- Flat descriptor with a short description; a qualifying README exists. -/
def wFlatReadme : World :=
  ⟨fun _ => repoTag "https://z/v1.zip" (some (.obj [("longdescription", .str "short")]))
     (.ok ⟨some ⟨"A much longer readme body.", none⟩, some "base64"⟩),
   none, fun _ => ⟨"", ""⟩, fun _ => .err, fun _ => 77⟩

/-- Enveloped descriptor with a short inner description; the same qualifying
README exists. -/
def wEnvReadme : World :=
  ⟨fun _ => repoTag "https://z/v1.zip"
     (some (.obj [("plugin", .obj [("longdescription", .str "short")])]))
     (.ok ⟨some ⟨"A much longer readme body.", none⟩, some "base64"⟩),
   none, fun _ => ⟨"", ""⟩, fun _ => .err, fun _ => 77⟩

/-- A descriptor whose decoded bytes are not valid JSON. -/
def wBadJson : World :=
  ⟨fun _ => repoTag "https://z/v1.zip" none (.ok ⟨none, none⟩),
   none, fun _ => ⟨"", ""⟩, fun _ => .err, fun _ => 77⟩

/-- A configured shortener that answers every request with an error. -/
def wBadShortener : World :=
  ⟨fun _ => repoTag "https://z/v1.zip" (some (.obj [])) (.ok ⟨none, none⟩),
   some "https://sh/", fun _ => ⟨"boom", ""⟩, fun _ => .err, fun _ => 77⟩

/-- A healthy shortener; two distinct repositories share one zipball URL. -/
def wShared : World :=
  ⟨fun _ => repoTag "https://z/shared.zip" (some (.obj [])) (.ok ⟨none, none⟩),
   some "https://sh/", fun _ => ⟨"", "http://s/1"⟩, fun _ => .err, fun _ => 77⟩

def eShared1 : ManifestEntry := ⟨"a/b", some "v1", none, false, false, none⟩

def eShared2 : ManifestEntry := ⟨"c/d", some "v1", none, false, false, none⟩

/-- The record the resolver produces for `eView` against `wView`. -/
def recView : Obj :=
  match (getPluginJson eView [] wView).1 with
  | .ok r => r
  | _ => []

/-- The record the resolver produces for `eTag` against `wTag`. -/
def recTag : Obj :=
  match (getPluginJson eTag [] wTag).1 with
  | .ok r => r
  | _ => []

/-- The record the resolver produces for `eTag` against `wFlatReadme`. -/
def recFlat : Obj :=
  match (getPluginJson eTag [] wFlatReadme).1 with
  | .ok r => r
  | _ => []

/-- The record the resolver produces for `eTag` against `wEnvReadme`. -/
def recEnv : Obj :=
  match (getPluginJson eTag [] wEnvReadme).1 with
  | .ok r => r
  | _ => []

/-- Concrete diff inputs: current registry with two plugins. -/
def allPc : List (String × Obj) :=
  [("a", [("lastUpdated", Json.int 5)]), ("b", [])]

/-- Concrete previous registry: "a" older, "c" gone from the new set. -/
def oldPc : List (String × Int) :=
  [("a", 3), ("c", 7)]

/-- The result of one run with two manifest entries sharing a zipball URL. -/
def resShared : RunResult :=
  match run [eShared1, eShared2] none wShared with
  | .ok r => r
  | _ => ⟨[], [], [], [], [], []⟩

/-- The `full_name`-matches-manifest-key check over a produced registry. -/
def projKeysMatch (l : List (String × Obj)) : Bool :=
  l.all (fun p =>
    match getKey p.2 "projectData" with
    | some (.obj pd) =>
      match getKey pd "full_name" with
      | some (.str fn) => fn == p.1
      | _ => false
    | _ => false)

/-- No resolved zipball URL collides with the view-only placeholder. -/
def zipNotPlaceholder (e : ManifestEntry) (w : World) : Bool :=
  match stage1 e w with
  | .ok c1 => !(c1.zip == some placeholderUrl)
  | _ => true

/-- The result of the first run over a single plain entry with a configured,
healthy URL shortener. -/
def resShared1 : RunResult :=
  match run [eShared1] none wShared with
  | .ok r => r
  | _ => ⟨[], [], [], [], [], []⟩

@[simp]
theorem alookup_aset_self {α : Type} (l : List (String × α)) (k : String) (v : α) :
    alookup (aset l k v) k = some v := by
  induction l with
  | nil => simp [aset, alookup]
  | cons hd tl ih =>
    obtain ⟨k0, v0⟩ := hd
    by_cases h : k0 = k
    · simp [aset, alookup, h]
    · simp [aset, alookup, h, ih]

@[simp]
theorem alookup_aset_ne {α : Type} (l : List (String × α)) (k k' : String) (v : α)
    (h : k' ≠ k) : alookup (aset l k v) k' = alookup l k' := by
  induction l with
  | nil => simp [aset, alookup, Ne.symm h]
  | cons hd tl ih =>
    obtain ⟨k0, v0⟩ := hd
    by_cases h0 : k0 = k
    · simp [aset, alookup, h0, Ne.symm h]
    · by_cases h1 : k0 = k'
      · simp [aset, alookup, h0, h1, h]
      · simp [aset, alookup, h0, h1, ih]

@[simp]
theorem getKey_setKey_self (d : Obj) (k : String) (v : Json) :
    getKey (setKey d k v) k = some v := alookup_aset_self d k v

@[simp]
theorem getKey_setKey_ne (d : Obj) (k k' : String) (v : Json) (h : k' ≠ k) :
    getKey (setKey d k v) k' = getKey d k' := alookup_aset_ne d k k' v h

@[simp]
theorem getKey_delKey_self (d : Obj) (k : String) : getKey (delKey d k) k = none := by
  induction d with
  | nil => simp [delKey, getKey, alookup]
  | cons hd tl ih =>
    obtain ⟨k0, v0⟩ := hd
    by_cases h : k0 = k
    · simpa [delKey, getKey, alookup, List.filter_cons, h] using ih
    · simpa [delKey, getKey, alookup, List.filter_cons, h] using ih

@[simp]
theorem getKey_delKey_ne (d : Obj) (k k' : String) (h : k' ≠ k) :
    getKey (delKey d k) k' = getKey d k' := by
  induction d with
  | nil => simp [delKey, getKey, alookup]
  | cons hd tl ih =>
    obtain ⟨k0, v0⟩ := hd
    by_cases h0 : k0 = k
    · simpa [delKey, getKey, alookup, List.filter_cons, h0, Ne.symm h] using ih
    · by_cases h1 : k0 = k'
      · simp [delKey, getKey, alookup, List.filter_cons, h0, h1, h]
      · simpa [delKey, getKey, alookup, List.filter_cons, h0, h1] using ih

theorem alookup_isSome_of_mem_keys {α : Type} (l : List (String × α)) (k : String)
    (h : k ∈ l.map Prod.fst) : (alookup l k).isSome := by
  induction l with
  | nil => simp at h
  | cons hd tl ih =>
    obtain ⟨k0, v0⟩ := hd
    by_cases h0 : k0 = k
    · simp [alookup, h0]
    · simp only [List.map_cons, List.mem_cons] at h
      rcases h with h | h
      · exact absurd h.symm h0
      · simpa [alookup, h0] using ih h

theorem mem_keys_of_alookup_isSome {α : Type} (l : List (String × α)) (k : String)
    (h : (alookup l k).isSome) : k ∈ l.map Prod.fst := by
  induction l with
  | nil => simp [alookup] at h
  | cons hd tl ih =>
    obtain ⟨k0, v0⟩ := hd
    by_cases h0 : k0 = k
    · simp [h0]
    · simp only [alookup, if_neg h0] at h
      simpa using Or.inr (ih h)

theorem getKey_normApi_ne (d : Obj) (k : String) (h : k ≠ "api") :
    getKey (normApi d) k = getKey d k := by
  unfold normApi
  split <;> simp [h]

theorem getKey_normMinVersion_ne (d : Obj) (k : String)
    (h1 : k ≠ "minimumBinaryNinjaVersion") (h2 : k ≠ "minimumbinaryninjaversion") :
    getKey (normMinVersion d) k = getKey d k := by
  unfold normMinVersion
  split
  · split <;> simp [h1, h2]
  · split
    · split <;> simp [h1]
    · simp [h1]

theorem getKey_defaultKey_ne (d : Obj) (k k' : String) (v : Json) (h : k' ≠ k) :
    getKey (defaultKey d k v) k' = getKey d k' := by
  unfold defaultKey
  split <;> simp [h]

theorem getKey_normMaxVersion_ne (d : Obj) (k : String)
    (h : k ≠ "maximumBinaryNinjaVersion") :
    getKey (normMaxVersion d) k = getKey d k := by
  unfold normMaxVersion
  split
  · split <;> simp [h]
  · simp [h]

theorem getKey_normDefaults_ne (d : Obj) (k : String)
    (h1 : k ≠ "pluginmetadataversion") (h2 : k ≠ "maximumBinaryNinjaVersion")
    (h3 : k ≠ "platforms") (h4 : k ≠ "installinstructions") :
    getKey (normDefaults d) k = getKey d k := by
  unfold normDefaults
  rw [getKey_defaultKey_ne _ _ _ _ h4, getKey_defaultKey_ne _ _ _ _ h3,
    getKey_normMaxVersion_ne _ _ h2, getKey_defaultKey_ne _ _ _ _ h1]

theorem getKey_addSubdir_ne (p : ManifestEntry) (d : Obj) (k : String)
    (h : k ≠ "subdir") : getKey (addSubdir p d) k = getKey d k := by
  unfold addSubdir
  split <;> simp [h]

theorem getKey_viewFloor_ne (v : Bool) (d : Obj) (k : String)
    (h : k ≠ "minimumBinaryNinjaVersion") : getKey (viewFloor v d) k = getKey d k := by
  unfold viewFloor
  split
  · split
    · split <;> simp [h]
    · rfl
  · rfl

theorem getKey_normMinVersion_legacy (d : Obj) :
    getKey (normMinVersion d) "minimumbinaryninjaversion" = none := by
  cases hv : getKey d "minimumbinaryninjaversion" with
  | some v =>
    simp only [normMinVersion, hv]
    exact getKey_delKey_self _ _
  | none =>
    cases hc : getKey d "minimumBinaryNinjaVersion" with
    | some v =>
      simp only [normMinVersion, hv, hc]
      split
      · exact hv
      · rw [getKey_setKey_ne _ _ _ _ (by decide)]
        exact hv
    | none =>
      simp only [normMinVersion, hv, hc]
      rw [getKey_setKey_ne _ _ _ _ (by decide)]
      exact hv

theorem normMinVersion_of_legacy (d : Obj) (v : Json)
    (hv : getKey d "minimumbinaryninjaversion" = some v) :
    getKey (normMinVersion d) "minimumBinaryNinjaVersion" =
      some (if isInstInt v then v else .int 0) := by
  unfold normMinVersion
  rw [hv]
  rw [getKey_delKey_ne _ _ _ (by decide)]
  split <;> simp

theorem normMinVersion_of_neither (d : Obj)
    (hv : getKey d "minimumbinaryninjaversion" = none)
    (hc : getKey d "minimumBinaryNinjaVersion" = none) :
    getKey (normMinVersion d) "minimumBinaryNinjaVersion" = some (.int 0) := by
  unfold normMinVersion
  rw [hv, hc]
  simp

theorem normMinVersion_isInstInt (d : Obj) :
    ∃ v, getKey (normMinVersion d) "minimumBinaryNinjaVersion" = some v ∧ isInstInt v := by
  unfold normMinVersion
  cases hv : getKey d "minimumbinaryninjaversion" with
  | some v =>
    refine ⟨if isInstInt v then v else .int 0, ?_, ?_⟩
    · rw [getKey_delKey_ne _ _ _ (by decide)]
      split <;> simp
    · split
      · rename_i hi
        exact hi
      · rfl
  | none =>
    cases hc : getKey d "minimumBinaryNinjaVersion" with
    | some v =>
      by_cases hi : isInstInt v
      · exact ⟨v, by simp [hi, hc], hi⟩
      · exact ⟨.int 0, by simp [hi], rfl⟩
    | none => exact ⟨.int 0, by simp, rfl⟩

theorem viewFloor_min_ge (d : Obj) (v : Json)
    (hv : getKey d "minimumBinaryNinjaVersion" = some v) (hint : isInstInt v) :
    ∃ n : Int, getKey (viewFloor true d) "minimumBinaryNinjaVersion" = some (.int n) ∧
      6135 ≤ n := by
  by_cases hlt : pyIntVal v < 6135
  · refine ⟨6135, ?_, le_refl _⟩
    simp [viewFloor, hv, hlt]
  · cases v with
    | int n =>
      simp only [pyIntVal] at hlt
      refine ⟨n, ?_, not_lt.mp hlt⟩
      simp [viewFloor, hv, pyIntVal, hlt]
    | bool b =>
      exact absurd (show pyIntVal (Json.bool b) < 6135 from by cases b <;> decide) hlt
    | null => simp [isInstInt] at hint
    | str s => simp [isInstInt] at hint
    | arr l => simp [isInstInt] at hint
    | obj o => simp [isInstInt] at hint

theorem viewFloor_false (d : Obj) : viewFloor false d = d := rfl

theorem assembleRecord_packageUrl (p : ManifestEntry) (c1 : Ctx1) (c2 : Ctx2)
    (s : String) (lu : Int) (fn : String) :
    getKey (assembleRecord p c1 c2 s lu fn) "packageUrl" =
      some (.str (if c1.view_only then placeholderUrl else c1.zip.getD "")) := by
  cases hview : c1.view_only <;>
    simp [assembleRecord, hview, getKey_viewFloor_ne, getKey_addSubdir_ne, getKey_normDefaults_ne,
      getKey_normMinVersion_ne, getKey_normApi_ne, getKey_setKey_ne, getKey_setKey_self]

theorem assembleRecord_packageShortUrl (p : ManifestEntry) (c1 : Ctx1) (c2 : Ctx2)
    (s : String) (lu : Int) (fn : String) :
    getKey (assembleRecord p c1 c2 s lu fn) "packageShortUrl" =
      some (.str (if c1.view_only then placeholderUrl else s)) := by
  cases hview : c1.view_only <;>
    simp [assembleRecord, hview, getKey_viewFloor_ne, getKey_addSubdir_ne, getKey_normDefaults_ne,
      getKey_normMinVersion_ne, getKey_normApi_ne, getKey_setKey_ne, getKey_setKey_self]

theorem assembleRecord_view_only (p : ManifestEntry) (c1 : Ctx1) (c2 : Ctx2)
    (s : String) (lu : Int) (fn : String) :
    getKey (assembleRecord p c1 c2 s lu fn) "view_only" = some (.bool c1.view_only) := by
  cases hview : c1.view_only <;>
    simp [assembleRecord, hview, getKey_viewFloor_ne, getKey_addSubdir_ne, getKey_normDefaults_ne,
      getKey_normMinVersion_ne, getKey_normApi_ne, getKey_setKey_ne, getKey_setKey_self]

theorem assembleRecord_lastUpdated (p : ManifestEntry) (c1 : Ctx1) (c2 : Ctx2)
    (s : String) (lu : Int) (fn : String) :
    getKey (assembleRecord p c1 c2 s lu fn) "lastUpdated" = some (.int lu) := by
  cases hview : c1.view_only <;>
    simp [assembleRecord, hview, getKey_viewFloor_ne, getKey_addSubdir_ne, getKey_normDefaults_ne,
      getKey_normMinVersion_ne, getKey_normApi_ne, getKey_setKey_ne, getKey_setKey_self]

theorem assembleRecord_projectData (p : ManifestEntry) (c1 : Ctx1) (c2 : Ctx2)
    (s : String) (lu : Int) (fn : String) :
    getKey (assembleRecord p c1 c2 s lu fn) "projectData" =
      some (.obj (setKey c2.proj "updated_at" (.str (isoRender lu)))) := by
  cases hview : c1.view_only <;>
    simp [assembleRecord, hview, getKey_viewFloor_ne, getKey_addSubdir_ne, getKey_normDefaults_ne,
      getKey_normMinVersion_ne, getKey_normApi_ne, getKey_setKey_ne, getKey_setKey_self]

theorem assembleRecord_path (p : ManifestEntry) (c1 : Ctx1) (c2 : Ctx2)
    (s : String) (lu : Int) (fn : String) :
    getKey (assembleRecord p c1 c2 s lu fn) "path" = some (.str (sanitizePath fn)) := by
  cases hview : c1.view_only <;>
    simp [assembleRecord, hview, getKey_viewFloor_ne, getKey_addSubdir_ne, getKey_normDefaults_ne,
      getKey_normMinVersion_ne, getKey_normApi_ne, getKey_setKey_ne, getKey_setKey_self]

theorem assembleRecord_commit (p : ManifestEntry) (c1 : Ctx1) (c2 : Ctx2)
    (s : String) (lu : Int) (fn : String) :
    getKey (assembleRecord p c1 c2 s lu fn) "commit" =
      some (match c1.commit with | some c => .str c | none => .null) := by
  cases hview : c1.view_only <;>
    simp [assembleRecord, hview, getKey_viewFloor_ne, getKey_addSubdir_ne, getKey_normDefaults_ne,
      getKey_normMinVersion_ne, getKey_normApi_ne, getKey_setKey_ne, getKey_setKey_self]

theorem assembleRecord_longdescription (p : ManifestEntry) (c1 : Ctx1) (c2 : Ctx2)
    (s : String) (lu : Int) (fn : String) :
    getKey (assembleRecord p c1 c2 s lu fn) "longdescription" =
      getKey c2.descriptor "longdescription" := by
  cases hview : c1.view_only <;>
    simp [assembleRecord, hview, getKey_viewFloor_ne, getKey_addSubdir_ne, getKey_normDefaults_ne,
      getKey_normMinVersion_ne, getKey_normApi_ne, getKey_setKey_ne, getKey_setKey_self]

theorem assembleRecord_legacyMin (p : ManifestEntry) (c1 : Ctx1) (c2 : Ctx2)
    (s : String) (lu : Int) (fn : String) :
    getKey (assembleRecord p c1 c2 s lu fn) "minimumbinaryninjaversion" = none := by
  cases hview : c1.view_only <;>
  · simp only [assembleRecord, hview]
    rw [getKey_viewFloor_ne _ _ _ (by decide), getKey_addSubdir_ne _ _ _ (by decide),
      getKey_normDefaults_ne _ _ (by decide) (by decide) (by decide) (by decide)]
    exact getKey_normMinVersion_legacy _

theorem getKey_normMinVersion_cur (d : Obj) :
    getKey (normMinVersion d) "minimumBinaryNinjaVersion" =
      (match getKey d "minimumbinaryninjaversion" with
       | some v => some (if isInstInt v then v else .int 0)
       | none =>
         match getKey d "minimumBinaryNinjaVersion" with
         | some v => some (if isInstInt v then v else .int 0)
         | none => some (.int 0)) := by
  cases hv : getKey d "minimumbinaryninjaversion" with
  | some v => simpa [hv] using normMinVersion_of_legacy d v hv
  | none =>
    cases hc : getKey d "minimumBinaryNinjaVersion" with
    | some v =>
      simp only [normMinVersion, hv, hc]
      by_cases hi : isInstInt v
      · simp [hi, hc]
      · simp [hi]
    | none => simpa [hv, hc] using normMinVersion_of_neither d hv hc

theorem assembleRecord_min_nonview (p : ManifestEntry) (c1 : Ctx1) (c2 : Ctx2)
    (s : String) (lu : Int) (fn : String) (hview : c1.view_only = false) :
    getKey (assembleRecord p c1 c2 s lu fn) "minimumBinaryNinjaVersion" =
      (match getKey c2.descriptor "minimumbinaryninjaversion" with
       | some v => some (if isInstInt v then v else .int 0)
       | none =>
         match getKey c2.descriptor "minimumBinaryNinjaVersion" with
         | some v => some (if isInstInt v then v else .int 0)
         | none => some (.int 0)) := by
  simp [assembleRecord, hview, viewFloor_false, getKey_addSubdir_ne, getKey_normDefaults_ne,
    getKey_normMinVersion_cur, getKey_normApi_ne, getKey_setKey_ne]

theorem min_view_stack (p : ManifestEntry) (d0 : Obj) :
    ∃ n : Int,
      getKey (viewFloor true (addSubdir p (normDefaults (normMinVersion (normApi d0)))))
        "minimumBinaryNinjaVersion" = some (.int n) ∧ 6135 ≤ n := by
  obtain ⟨v, hv, hint⟩ := normMinVersion_isInstInt (normApi d0)
  have hX : getKey (addSubdir p (normDefaults (normMinVersion (normApi d0))))
      "minimumBinaryNinjaVersion" = some v := by
    rw [getKey_addSubdir_ne _ _ _ (by decide),
      getKey_normDefaults_ne _ _ (by decide) (by decide) (by decide) (by decide)]
    exact hv
  exact viewFloor_min_ge _ v hX hint

theorem assembleRecord_min_view (p : ManifestEntry) (c1 : Ctx1) (c2 : Ctx2)
    (s : String) (lu : Int) (fn : String) (hview : c1.view_only = true) :
    ∃ n : Int,
      getKey (assembleRecord p c1 c2 s lu fn) "minimumBinaryNinjaVersion" =
        some (.int n) ∧ 6135 ≤ n := by
  simp only [assembleRecord, hview]
  exact min_view_stack p _

theorem findTag_eq_none (t : String) (tl : List TagInfo)
    (h : ∀ ti ∈ tl, ti.name ≠ t) : findTag t tl = none := by
  induction tl with
  | nil => rfl
  | cons hd tlr ih =>
    simp only [findTag]
    rw [if_neg (h hd (by simp))]
    exact ih (fun ti hm => h ti (by simp [hm]))

theorem findTag_first (t : String) (pre rest : List TagInfo) (ti : TagInfo)
    (hpre : ∀ p ∈ pre, p.name ≠ t) (hti : ti.name = t) :
    findTag t (pre ++ ti :: rest) = some ti := by
  induction pre with
  | nil => simp [findTag, hti]
  | cons hd prer ih =>
    simp only [List.cons_append, findTag]
    rw [if_neg (hpre hd (by simp))]
    exact ih (fun p hm => hpre p (by simp [hm]))

theorem stage1_ok_view (e : ManifestEntry) (w : World) (c1 : Ctx1)
    (h : stage1 e w = .ok c1) (hview : e.view_only = true) :
    c1.view_only = true ∧ c1.commit = none ∧ c1.zip = none := by
  simp only [stage1, hview, if_true] at h
  split at h
  · exact absurd h (by simp)
  · exact absurd h (by simp)
  · injection h with h2
    subst h2
    exact ⟨rfl, rfl, rfl⟩

theorem findTag_some (t : String) (tl : List TagInfo) (ti : TagInfo)
    (h : findTag t tl = some ti) : ti ∈ tl ∧ ti.name = t := by
  induction tl with
  | nil => exact absurd h (by simp [findTag])
  | cons hd tlr ih =>
    simp only [findTag] at h
    by_cases hn : hd.name = t
    · rw [if_pos hn] at h
      injection h with h2
      subst h2
      exact ⟨by simp, hn⟩
    · rw [if_neg hn] at h
      obtain ⟨hm, he⟩ := ih h
      exact ⟨by simp [hm], he⟩

theorem stage1_ok_nonview (e : ManifestEntry) (w : World) (c1 : Ctx1)
    (h : stage1 e w = .ok c1) (hview : e.view_only = false) :
    ∃ t tl ti,
      c1.view_only = false ∧ c1.effTag = some t ∧ c1.commit = some ti.sha ∧
      c1.zip = some ti.zipballUrl ∧
      (w.repos e.name).tags = .ok tl ∧ findTag t tl = some ti ∧ ti ∈ tl ∧ ti.name = t ∧
      (e.auto_update = false → e.tag = some t) := by
  simp only [stage1, hview, Bool.false_eq_true, if_false] at h
  split at h
  · exact absurd h (by simp)
  · exact absurd h (by simp)
  · split at h
    · exact absurd h (by simp)
    · split at h
      · exact absurd h (by simp)
      · split at h
        · exact absurd h (by simp)
        · rename_i relStep rel xO t heqrel xF tagList htags xT ti hfind
          injection h with h2
          subst h2
          obtain ⟨hmem, hname⟩ := findTag_some t tagList ti hfind
          refine ⟨t, tagList, ti, rfl, rfl, rfl, rfl, htags, hfind, hmem, hname, ?_⟩
          intro hauto
          rw [hauto] at heqrel
          simp only [Bool.false_eq_true, if_false] at heqrel
          split at heqrel
          · exact absurd heqrel (by simp)
          · rename_i xt t0 htag
            split at heqrel
            · exact absurd heqrel (by simp)
            · split at heqrel
              · exact absurd heqrel (by simp)
              · injection heqrel with hpair
                injection hpair with hfst hsnd
                injection hsnd with hts
                rw [htag, hts]

theorem resolveShortUrl_hit (z : String) (cache : List (String × String)) (w : World)
    (s : String) (h : alookup cache z = some s) :
    resolveShortUrl z cache w = (.ok s, []) := by
  simp [resolveShortUrl, h]

theorem resolveShortUrl_ok_inv (z : String) (cache : List (String × String)) (w : World)
    (s : String) (sub : List String) (h : resolveShortUrl z cache w = (.ok s, sub)) :
    (alookup cache z = some s ∧ sub = []) ∨
    (alookup cache z = none ∧
      (((w.shortenerCfg = none ∨ w.shortenerCfg = some "") ∧ s = "" ∧ sub = []) ∨
       (∃ u, w.shortenerCfg = some u ∧ u ≠ "" ∧ (w.shorten z).error = "" ∧
         s = (w.shorten z).url_short ∧ pyStartsWith s "http" = true ∧ sub = [z]))) := by
  unfold resolveShortUrl at h
  cases hm : alookup cache z with
  | some s0 =>
    simp only [hm] at h
    injection h with h1 h2
    injection h1 with h1
    exact Or.inl ⟨by rw [h1], h2.symm⟩
  | none =>
    simp only [hm] at h
    refine Or.inr ⟨rfl, ?_⟩
    cases hc : w.shortenerCfg with
    | none =>
      simp only [hc] at h
      injection h with h1 h2
      injection h1 with h1
      exact Or.inl ⟨Or.inl rfl, h1.symm, h2.symm⟩
    | some u =>
      simp only [hc] at h
      by_cases hu : u = ""
      · rw [if_pos hu] at h
        injection h with h1 h2
        injection h1 with h1
        exact Or.inl ⟨Or.inr (by rw [hu]), h1.symm, h2.symm⟩
      · rw [if_neg hu] at h
        by_cases herr : (w.shorten z).error = ""
        · simp only [if_pos herr] at h
          by_cases hhttp : pyStartsWith (w.shorten z).url_short "http" = true
          · rw [if_pos hhttp] at h
            injection h with h1 h2
            injection h1 with h1
            refine Or.inr ⟨u, rfl, hu, herr, h1.symm, ?_, h2.symm⟩
            rw [h1] at hhttp
            exact hhttp
          · rw [if_neg hhttp] at h
            exact absurd h (by simp)
        · simp only [if_neg herr] at h
          have hfalse : pyStartsWith "" "http" = false := by decide
          simp [hfalse] at h

theorem resolveShortUrl_crash_of_error (z : String) (cache : List (String × String))
    (w : World) (u : String) (hmiss : alookup cache z = none)
    (hu : w.shortenerCfg = some u) (hne : u ≠ "")
    (herr : (w.shorten z).error ≠ "") :
    resolveShortUrl z cache w = (.crash "AssertionError: shortUrl", [z]) := by
  have hfalse : pyStartsWith "" "http" = false := by decide
  simp [resolveShortUrl, hmiss, hu, hne, herr, hfalse]

theorem projFullName_ok_inv (p : Obj) (fn : String) (h : projFullName p = .ok fn) :
    getKey p "full_name" = some (.str fn) := by
  unfold projFullName at h
  split at h
  · rename_i s hs
    injection h with h2
    rw [← h2]
    exact hs
  · exact absurd h (by simp)
  · exact absurd h (by simp)

theorem releaseLastUpdated_ne_skip (w : World) (c1 : Ctx1) (c2 : Ctx2) :
    releaseLastUpdated w c1 c2 ≠ .skip := by
  unfold releaseLastUpdated
  split
  · unfold projUpdatedTs
    split <;> simp
  · split <;> simp

theorem projFullName_ne_skip (p : Obj) : projFullName p ≠ .skip := by
  unfold projFullName
  split <;> simp

theorem buildRecord_ok_inv (w : World) (p : ManifestEntry) (c1 : Ctx1) (c2 : Ctx2)
    (s : String) (r : Obj) (h : buildRecord w p c1 c2 s = .ok r) :
    ∃ lu fn, releaseLastUpdated w c1 c2 = .ok lu ∧
      getKey c2.proj "full_name" = some (.str fn) ∧
      r = assembleRecord p c1 c2 s lu fn := by
  unfold buildRecord at h
  cases hlu : releaseLastUpdated w c1 c2 with
  | skip =>
    simp only [hlu] at h
    exact absurd h (by simp)
  | crash m =>
    simp only [hlu] at h
    exact absurd h (by simp)
  | ok lu =>
    simp only [hlu] at h
    cases hfn : projFullName c2.proj with
    | skip =>
      simp only [hfn] at h
      exact absurd h (by simp)
    | crash m =>
      simp only [hfn] at h
      exact absurd h (by simp)
    | ok fn =>
      simp only [hfn] at h
      injection h with h2
      exact ⟨lu, fn, rfl, projFullName_ok_inv _ _ hfn, h2.symm⟩

theorem buildRecord_ne_skip (w : World) (p : ManifestEntry) (c1 : Ctx1) (c2 : Ctx2)
    (s : String) : buildRecord w p c1 c2 s ≠ .skip := by
  unfold buildRecord
  cases hlu : releaseLastUpdated w c1 c2 with
  | skip => exact absurd hlu (releaseLastUpdated_ne_skip w c1 c2)
  | crash m => simp
  | ok lu =>
    cases hfn : projFullName c2.proj with
    | skip => exact absurd hfn (projFullName_ne_skip c2.proj)
    | crash m => simp
    | ok fn => simp

theorem stage1_skip_of_noMatch (e : ManifestEntry) (w : World) (t : String)
    (hview : e.view_only = false) (hauto : e.auto_update = false)
    (htag : e.tag = some t) (tl : List TagInfo)
    (htags : (w.repos e.name).tags = .ok tl)
    (hnone : ∀ ti ∈ tl, ti.name ≠ t) :
    stage1 e w = .skip := by
  simp only [stage1, hview, hauto, htag, Bool.false_eq_true, if_false]
  cases hrel : (w.repos e.name).releaseByTag t with
  | err => simp [hrel]
  | ok rel =>
    by_cases hm : rel.message = some "Not Found"
    · simp [hrel, hm]
    · simp [hrel, hm, htags, findTag_eq_none t tl hnone]

theorem resolveShortUrl_ne_skip (z : String) (cache : List (String × String)) (w : World) :
    (resolveShortUrl z cache w).1 ≠ .skip := by
  unfold resolveShortUrl
  cases hm : alookup cache z with
  | some s => simp
  | none =>
    cases hc : w.shortenerCfg with
    | none => simp
    | some u =>
      by_cases hu : u = ""
      · simp [hu]
      · simp only [hu, if_false]
        split <;> split <;> simp

theorem resolveShortUrl_ok_of_good (z : String) (cache : List (String × String))
    (w : World) (herr : (w.shorten z).error = "")
    (hhttp : pyStartsWith (w.shorten z).url_short "http" = true) :
    ∃ s sub, resolveShortUrl z cache w = (.ok s, sub) := by
  cases hm : alookup cache z with
  | some s => exact ⟨s, [], resolveShortUrl_hit z cache w s hm⟩
  | none =>
    cases hc : w.shortenerCfg with
    | none => exact ⟨"", [], by simp [resolveShortUrl, hm, hc]⟩
    | some u =>
      by_cases hu : u = ""
      · exact ⟨"", [], by simp [resolveShortUrl, hm, hc, hu]⟩
      · exact ⟨(w.shorten z).url_short, [z], by simp [resolveShortUrl, hm, hc, hu, herr, hhttp]⟩

theorem getPluginJson_fst_eq (e : ManifestEntry) (w : World)
    (cache : List (String × String)) (hsite : e.site = none) :
    (getPluginJson e cache w).1 =
      (match stage1 e w with
       | .skip => .skip
       | .crash m => .crash m
       | .ok c1 =>
         match (match c1.zip with
                | none => Outcome.ok ""
                | some z => (resolveShortUrl z cache w).1) with
         | .crash m => .crash m
         | .skip => .skip
         | .ok s =>
           match stage2 e w c1 with
           | .skip => .skip
           | .crash m => .crash m
           | .ok c2 =>
             match buildRecord w e c1 c2 s with
             | .skip => .skip
             | .crash m => .crash m
             | .ok r => .ok r) := by
  simp only [getPluginJson, hsite]
  cases h1 : stage1 e w with
  | skip => rfl
  | crash m => rfl
  | ok c1 =>
    simp only []
    cases hz : c1.zip with
    | none =>
      cases h2 : stage2 e w c1 with
      | skip => simp [hz, h2]
      | crash m => simp [hz, h2]
      | ok c2 => cases hb : buildRecord w e c1 c2 "" <;> simp [hz, h2, hb]
    | some z =>
      rcases hr : resolveShortUrl z cache w with ⟨o, sub⟩
      cases o with
      | crash m => simp [hz, hr]
      | skip => simp [hz, hr]
      | ok s =>
        cases h2 : stage2 e w c1 with
        | skip => simp [hz, hr, h2]
        | crash m => simp [hz, hr, h2]
        | ok c2 => cases hb : buildRecord w e c1 c2 s <;> simp [hz, hr, h2, hb]

theorem getPluginJson_fst_congr (e : ManifestEntry) (w : World)
    (cache cache' : List (String × String)) (hsite : e.site = none)
    (hshort : ∀ c1 z, stage1 e w = .ok c1 → c1.zip = some z →
      (resolveShortUrl z cache w).1 = (resolveShortUrl z cache' w).1) :
    (getPluginJson e cache w).1 = (getPluginJson e cache' w).1 := by
  rw [getPluginJson_fst_eq e w cache hsite, getPluginJson_fst_eq e w cache' hsite]
  cases h1 : stage1 e w with
  | skip => rfl
  | crash m => rfl
  | ok c1 =>
    simp only []
    cases hz : c1.zip with
    | none => simp [hz]
    | some z => simp [hz, hshort c1 z h1 hz]

theorem getPluginJson_ok_inv (e : ManifestEntry) (cache : List (String × String))
    (w : World) (r : Obj) (sub : List String) (hsite : e.site = none)
    (h : getPluginJson e cache w = (.ok r, sub)) :
    ∃ c1 c2 s,
      stage1 e w = .ok c1 ∧ stage2 e w c1 = .ok c2 ∧ buildRecord w e c1 c2 s = .ok r ∧
      ((c1.zip = none ∧ s = "" ∧ sub = []) ∨
       (∃ z, c1.zip = some z ∧ resolveShortUrl z cache w = (.ok s, sub))) := by
  simp only [getPluginJson, hsite] at h
  cases h1 : stage1 e w with
  | skip =>
    simp only [h1] at h
    exact absurd h (by simp)
  | crash m =>
    simp only [h1] at h
    exact absurd h (by simp)
  | ok c1 =>
    simp only [h1] at h
    cases hz : c1.zip with
    | none =>
      simp only [hz] at h
      cases h2 : stage2 e w c1 with
      | skip =>
        simp only [h2] at h
        exact absurd h (by simp)
      | crash m =>
        simp only [h2] at h
        exact absurd h (by simp)
      | ok c2 =>
        simp only [h2] at h
        cases hb : buildRecord w e c1 c2 "" with
        | skip =>
          simp only [hb] at h
          exact absurd h (by simp)
        | crash m =>
          simp only [hb] at h
          exact absurd h (by simp)
        | ok r0 =>
          simp only [hb] at h
          injection h with hA hB
          injection hA with hA
          exact ⟨c1, c2, "", rfl, h2, by rw [← hA]; exact hb, Or.inl ⟨hz, rfl, hB.symm⟩⟩
    | some z =>
      rcases hr : resolveShortUrl z cache w with ⟨o, sub0⟩
      simp only [hz, hr] at h
      cases o with
      | crash m => exact absurd h (by simp)
      | skip => exact absurd h (by simp)
      | ok s =>
        cases h2 : stage2 e w c1 with
        | skip =>
          simp only [h2] at h
          exact absurd h (by simp)
        | crash m =>
          simp only [h2] at h
          exact absurd h (by simp)
        | ok c2 =>
          simp only [h2] at h
          cases hb : buildRecord w e c1 c2 s with
          | skip =>
            simp only [hb] at h
            exact absurd h (by simp)
          | crash m =>
            simp only [hb] at h
            exact absurd h (by simp)
          | ok r0 =>
            simp only [hb] at h
            injection h with hA hB
            injection hA with hA
            refine ⟨c1, c2, s, rfl, h2, by rw [← hA]; exact hb, Or.inr ⟨z, hz, ?_⟩⟩
            rw [hr, hB]

theorem getPluginJson_skip_inv (e : ManifestEntry) (cache : List (String × String))
    (w : World) (sub : List String) (hsite : e.site = none)
    (h : getPluginJson e cache w = (.skip, sub)) :
    stage1 e w = .skip ∨
    ∃ c1 s sub0, stage1 e w = .ok c1 ∧ stage2 e w c1 = .skip ∧
      ((c1.zip = none ∧ s = "" ∧ sub0 = []) ∨
       (∃ z, c1.zip = some z ∧ resolveShortUrl z cache w = (.ok s, sub0))) := by
  simp only [getPluginJson, hsite] at h
  cases h1 : stage1 e w with
  | skip => exact Or.inl rfl
  | crash m =>
    simp only [h1] at h
    exact absurd h (by simp)
  | ok c1 =>
    simp only [h1] at h
    refine Or.inr ?_
    cases hz : c1.zip with
    | none =>
      simp only [hz] at h
      cases h2 : stage2 e w c1 with
      | skip => exact ⟨c1, "", [], rfl, h2, Or.inl ⟨hz, rfl, rfl⟩⟩
      | crash m =>
        simp only [h2] at h
        exact absurd h (by simp)
      | ok c2 =>
        simp only [h2] at h
        cases hb : buildRecord w e c1 c2 "" with
        | skip => exact absurd hb (buildRecord_ne_skip w e c1 c2 "")
        | crash m =>
          simp only [hb] at h
          exact absurd h (by simp)
        | ok r0 =>
          simp only [hb] at h
          exact absurd h (by simp)
    | some z =>
      rcases hr : resolveShortUrl z cache w with ⟨o, sub0⟩
      simp only [hz, hr] at h
      cases o with
      | crash m => exact absurd h (by simp)
      | skip => exact absurd (congrArg Prod.fst hr) (resolveShortUrl_ne_skip z cache w)
      | ok s =>
        cases h2 : stage2 e w c1 with
        | skip => exact ⟨c1, s, sub0, rfl, h2, Or.inr ⟨z, hz, hr⟩⟩
        | crash m =>
          simp only [h2] at h
          exact absurd h (by simp)
        | ok c2 =>
          simp only [h2] at h
          cases hb : buildRecord w e c1 c2 s with
          | skip => exact absurd hb (buildRecord_ne_skip w e c1 c2 s)
          | crash m =>
            simp only [hb] at h
            exact absurd h (by simp)
          | ok r0 =>
            simp only [hb] at h
            exact absurd h (by simp)

theorem getPluginJson_of_stage1_skip (e : ManifestEntry) (cache : List (String × String))
    (w : World) (hsite : e.site = none) (h1 : stage1 e w = .skip) :
    getPluginJson e cache w = (.skip, []) := by
  simp [getPluginJson, hsite, h1]

theorem stage2_ok_inv (e : ManifestEntry) (w : World) (c1 : Ctx1) (c2 : Ctx2)
    (h : stage2 e w c1 = .ok c2) :
    (w.repos e.name).project = .ok c2.proj ∧
    ∃ d0 d1,
      fetchDescriptor e (w.repos e.name) (if c1.view_only then none else c1.effTag) = .ok d0 ∧
      applyReadme e (w.repos e.name) (if c1.view_only then none else c1.effTag) d0 = .ok d1 ∧
      unwrapEnvelope d1 = .ok c2.descriptor := by
  simp only [stage2] at h
  cases hp : (w.repos e.name).project with
  | err =>
    simp only [hp] at h
    exact absurd h (by simp)
  | ok proj =>
    simp only [hp] at h
    cases hd : fetchDescriptor e (w.repos e.name) (if c1.view_only then none else c1.effTag) with
    | skip =>
      simp only [hd] at h
      exact absurd h (by simp)
    | crash m =>
      simp only [hd] at h
      exact absurd h (by simp)
    | ok d0 =>
      simp only [hd] at h
      cases ha : applyReadme e (w.repos e.name) (if c1.view_only then none else c1.effTag) d0 with
      | skip =>
        simp only [ha] at h
        exact absurd h (by simp)
      | crash m =>
        simp only [ha] at h
        exact absurd h (by simp)
      | ok d1 =>
        simp only [ha] at h
        cases hu : unwrapEnvelope d1 with
        | skip =>
          simp only [hu] at h
          exact absurd h (by simp)
        | crash m =>
          simp only [hu] at h
          exact absurd h (by simp)
        | ok d2 =>
          simp only [hu] at h
          injection h with h2
          subst h2
          exact ⟨rfl, d0, d1, rfl, ha, hu⟩

theorem sanitizePath_chars (s : String) :
    (sanitizePath s).data.all isWordChar = true := by
  simp only [sanitizePath, stripNonWord, List.all_eq_true]
  intro c hc
  exact List.of_mem_filter hc

theorem processEntries_fst_sub_inv (w : World) (cache : List (String × String)) :
    ∀ (l : List ManifestEntry) (acc : List (String × Obj)) (sub sub' : List String),
      Outcome.map Prod.fst (processEntries w cache l acc sub) =
      Outcome.map Prod.fst (processEntries w cache l acc sub') := by
  intro l
  induction l with
  | nil => intro acc sub sub'; rfl
  | cons e rest ih =>
    intro acc sub sub'
    simp only [processEntries]
    rcases hg : getPluginJson e cache w with ⟨o, s⟩
    cases o with
    | ok r => exact ih _ _ _
    | skip => exact ih _ _ _
    | crash m => rfl

theorem processEntries_crash_middle (w : World) (cache : List (String × String))
    (e : ManifestEntry) (m : String)
    (he : (getPluginJson e cache w).1 = .crash m) :
    ∀ (pre post : List ManifestEntry) (acc : List (String × Obj)) (sub : List String),
      (∀ e' ∈ pre, (getPluginJson e' cache w).1.isCrash = false) →
      processEntries w cache (pre ++ e :: post) acc sub = .crash m := by
  intro pre
  induction pre with
  | nil =>
    intro post acc sub _
    simp only [List.nil_append, processEntries]
    rcases hg : getPluginJson e cache w with ⟨o, s⟩
    rw [hg] at he
    cases o with
    | ok r => exact absurd he (by simp)
    | skip => exact absurd he (by simp)
    | crash mm =>
      simp only [] at he
      injection he with hmm
      rw [hmm]
  | cons e0 rest ih =>
    intro post acc sub hpre
    simp only [List.cons_append, processEntries]
    rcases hg : getPluginJson e0 cache w with ⟨o, s⟩
    cases o with
    | ok r => exact ih post _ _ (fun x hx => hpre x (List.mem_cons_of_mem _ hx))
    | skip => exact ih post _ _ (fun x hx => hpre x (List.mem_cons_of_mem _ hx))
    | crash mm =>
      exfalso
      have hcr := hpre e0 (List.mem_cons_self _ _)
      rw [hg] at hcr
      simp [Outcome.isCrash] at hcr

theorem processEntries_skip_middle (w : World) (cache : List (String × String))
    (e : ManifestEntry) (he : (getPluginJson e cache w).1 = .skip) :
    ∀ (pre post : List ManifestEntry) (acc : List (String × Obj)) (sub sub' : List String),
      Outcome.map Prod.fst (processEntries w cache (pre ++ e :: post) acc sub) =
      Outcome.map Prod.fst (processEntries w cache (pre ++ post) acc sub') := by
  intro pre
  induction pre with
  | nil =>
    intro post acc sub sub'
    simp only [List.nil_append, processEntries]
    rcases hg : getPluginJson e cache w with ⟨o, s⟩
    rw [hg] at he
    cases o with
    | ok r => exact absurd he (by simp)
    | crash m => exact absurd he (by simp)
    | skip => exact processEntries_fst_sub_inv w cache post acc _ _
  | cons e0 rest ih =>
    intro post acc sub sub'
    simp only [List.cons_append, processEntries]
    rcases hg : getPluginJson e0 cache w with ⟨o, s⟩
    cases o with
    | ok r => exact ih post _ _ _
    | skip => exact ih post _ _ _
    | crash m => rfl

/-- C5: every record resolved from a view-only entry carries the placeholder
package URLs, a null commit, and a minimum version of at least 6135. -/
theorem c5_view_only_placeholders (e : ManifestEntry) (cache : List (String × String))
    (w : World) (r : Obj) (sub : List String)
    (hsite : e.site = none) (hview : e.view_only = true)
    (h : getPluginJson e cache w = (.ok r, sub)) :
    getKey r "packageUrl" = some (.str "https://127.0.0.1/") ∧
    getKey r "packageShortUrl" = some (.str "https://127.0.0.1/") ∧
    getKey r "commit" = some .null ∧
    ∃ n : Int, getKey r "minimumBinaryNinjaVersion" = some (.int n) ∧ 6135 ≤ n := by
  obtain ⟨c1, c2, s, h1, h2, hb, _⟩ := getPluginJson_ok_inv e cache w r sub hsite h
  obtain ⟨hc1view, hc1commit, hc1zip⟩ := stage1_ok_view e w c1 h1 hview
  obtain ⟨lu, fn, hlu, hfn, hr⟩ := buildRecord_ok_inv w e c1 c2 s r hb
  subst hr
  refine ⟨?_, ?_, ?_, ?_⟩
  · rw [assembleRecord_packageUrl]
    simp [hc1view, placeholderUrl]
  · rw [assembleRecord_packageShortUrl]
    simp [hc1view, placeholderUrl]
  · rw [assembleRecord_commit]
    simp [hc1commit]
  · exact assembleRecord_min_view e c1 c2 s lu fn hc1view

theorem c5_witness :
    getKey recView "packageUrl" = some (.str "https://127.0.0.1/") ∧
    getKey recView "packageShortUrl" = some (.str "https://127.0.0.1/") ∧
    getKey recView "commit" = some .null ∧
    ∃ n : Int, getKey recView "minimumBinaryNinjaVersion" = some (.int n) ∧ 6135 ≤ n :=
  c5_view_only_placeholders eView [] wView recView [] rfl rfl (by rfl)

/-- C7: for a pinned entry (no auto-update, not view-only), the record commit
is the sha of the first tag-list entry matching the declared tag, and an entry
with no matching tag fails resolution with no record. -/
theorem c7_commit_from_matching_tag (e : ManifestEntry) (cache : List (String × String))
    (w : World) (t : String) (tl : List TagInfo)
    (hsite : e.site = none) (hview : e.view_only = false) (hauto : e.auto_update = false)
    (htag : e.tag = some t) (htags : (w.repos e.name).tags = .ok tl) :
    (∀ r sub pre rest ti, getPluginJson e cache w = (.ok r, sub) →
      tl = pre ++ ti :: rest → (∀ p ∈ pre, p.name ≠ t) → ti.name = t →
      getKey r "commit" = some (.str ti.sha)) ∧
    ((∀ ti ∈ tl, ti.name ≠ t) → getPluginJson e cache w = (.skip, [])) := by
  constructor
  · intro r sub pre rest ti h hdecomp hpre hti
    obtain ⟨c1, c2, s, h1, h2, hb, _⟩ := getPluginJson_ok_inv e cache w r sub hsite h
    obtain ⟨t0, tl0, ti0, _, _, hcommit, _, htags0, hfind0, _, _, htag0⟩ :=
      stage1_ok_nonview e w c1 h1 hview
    have hteq : t0 = t := by
      have h4 := htag0 hauto
      rw [htag] at h4
      injection h4 with h3
      exact h3.symm
    have htleq : tl0 = tl := by
      rw [htags] at htags0
      injection htags0 with h3
      exact h3.symm
    have hfirst : findTag t tl = some ti := by
      rw [hdecomp]
      exact findTag_first t pre rest ti hpre hti
    rw [hteq, htleq] at hfind0
    rw [hfirst] at hfind0
    injection hfind0 with h3
    obtain ⟨lu, fn, hlu, hfn, hr⟩ := buildRecord_ok_inv w e c1 c2 s r hb
    subst hr
    rw [assembleRecord_commit]
    simp [hcommit, h3]
  · intro hnone
    exact getPluginJson_of_stage1_skip e cache w hsite
      (stage1_skip_of_noMatch e w t hview hauto htag tl htags hnone)

theorem c7_witness :
    getKey recTag "commit" = some (.str "sha1") :=
  (c7_commit_from_matching_tag eTag [] wTag "v1" [⟨"v1", "sha1", "https://z/v1.zip"⟩]
    rfl rfl rfl rfl rfl).1 recTag [] [] [] ⟨"v1", "sha1", "https://z/v1.zip"⟩
    (by rfl) rfl (by simp) rfl

/-- C8: every record path is the repository full name with slashes replaced
by underscores and all other non-word characters removed, hence contains only
letters, digits and underscores. -/
theorem c8_path_sanitized (e : ManifestEntry) (cache : List (String × String))
    (w : World) (r : Obj) (sub : List String)
    (hsite : e.site = none) (h : getPluginJson e cache w = (.ok r, sub)) :
    ∃ p fn, (w.repos e.name).project = Fetch.ok p ∧
      getKey p "full_name" = some (.str fn) ∧
      getKey r "path" = some (.str (sanitizePath fn)) ∧
      (sanitizePath fn).data.all isWordChar = true := by
  obtain ⟨c1, c2, s, h1, h2, hb, _⟩ := getPluginJson_ok_inv e cache w r sub hsite h
  obtain ⟨hp, _⟩ := stage2_ok_inv e w c1 c2 h2
  obtain ⟨lu, fn, hlu, hfn, hr⟩ := buildRecord_ok_inv w e c1 c2 s r hb
  subst hr
  exact ⟨c2.proj, fn, hp, hfn, assembleRecord_path e c1 c2 s lu fn, sanitizePath_chars fn⟩

theorem c8_witness :
    getKey recTag "path" = some (.str (sanitizePath "a/b")) ∧
    (sanitizePath "a/b").data.all isWordChar = true := by
  obtain ⟨p, fn, hp, hfn, hpath, hchars⟩ :=
    c8_path_sanitized eTag [] wTag recTag [] rfl (by rfl)
  have hpv : p = projAB := by
    have : Fetch.ok p = Fetch.ok projAB := by rw [← hp]; rfl
    injection this
  subst hpv
  have hfnv : fn = "a/b" := by
    have : some (Json.str fn) = some (Json.str "a/b") := by rw [← hfn]; rfl
    injection this with h3
    injection h3
  subst hfnv
  exact ⟨hpath, hchars⟩

/-- C10: a configured shortener answering with a non-empty error leaves the
short URL empty, the startswith-http assertion fails, and the resulting
AssertionError aborts the entire run rather than skipping the entry. -/
theorem c10_shortener_error_aborts_run (e : ManifestEntry)
    (cache : List (String × String)) (oldP : List (String × Int)) (w : World)
    (c1 : Ctx1) (z u : String) (prev : Option (List Obj))
    (hsite : e.site = none) (h1 : stage1 e w = .ok c1) (hz : c1.zip = some z)
    (hmiss : alookup cache z = none) (hcfg : w.shortenerCfg = some u) (hu : u ≠ "")
    (herr : (w.shorten z).error ≠ "")
    (hseeds : runSeeds prev = .ok (cache, oldP)) :
    getPluginJson e cache w = (.crash "AssertionError: shortUrl", [z]) ∧
    ∀ pre post, (∀ e' ∈ pre, (getPluginJson e' cache w).1.isCrash = false) →
      run (pre ++ e :: post) prev w = .crash "AssertionError: shortUrl" := by
  have hcrash := resolveShortUrl_crash_of_error z cache w u hmiss hcfg hu herr
  have hentry : getPluginJson e cache w = (.crash "AssertionError: shortUrl", [z]) := by
    simp [getPluginJson, hsite, h1, hz, hcrash]
  refine ⟨hentry, ?_⟩
  intro pre post hpre
  have hfst : (getPluginJson e cache w).1 = .crash "AssertionError: shortUrl" := by
    rw [hentry]
  have hrun := processEntries_crash_middle w cache e "AssertionError: shortUrl" hfst
    pre post [] [] hpre
  simp [run, hseeds, hrun]

theorem c10_witness :
    getPluginJson eTag [] wBadShortener =
      (.crash "AssertionError: shortUrl", ["https://z/v1.zip"]) ∧
    run [eTag] none wBadShortener = .crash "AssertionError: shortUrl" := by
  have H := c10_shortener_error_aborts_run eTag [] [] wBadShortener
    ⟨false, some ⟨none, "v1", 100⟩, some "v1", some "sha1", some "https://z/v1.zip"⟩
    "https://z/v1.zip" "https://sh/" none rfl (by rfl) rfl rfl rfl (by decide) (by decide) rfl
  exact ⟨H.1, H.2 [] [] (by simp)⟩

theorem tryReadmes_none (repo : RepoData) (ref : Option String) :
    ∀ l : List String, (∀ f ∈ l, readmeQualifies repo ref f = false) →
      tryReadmes repo ref l = none := by
  intro l
  induction l with
  | nil => intro _; rfl
  | cons f rest ih =>
    intro h
    have hf := h f (List.mem_cons_self _ _)
    unfold readmeQualifies at hf
    simp only [tryReadmes]
    cases hr : repo.contents f ref with
    | err => simp [hr]
    | ok resp =>
      simp only [hr] at hf
      cases hcc : resp.content with
      | none => simp [hr, hcc, ih (fun g hg => h g (List.mem_cons_of_mem _ hg))]
      | some blob =>
        cases hee : resp.encoding with
        | none => simp [hr, hcc, hee, ih (fun g hg => h g (List.mem_cons_of_mem _ hg))]
        | some enc =>
          rw [hcc, hee] at hf
          simp only [Option.isSome_some, Bool.true_and, beq_iff_eq] at hf
          have hne : enc ≠ "base64" := by
            intro hcon
            rw [hcon] at hf
            simp at hf
          simp [hr, hcc, hee, hne, ih (fun g hg => h g (List.mem_cons_of_mem _ hg))]

theorem tryReadmes_first (repo : RepoData) (ref : Option String) :
    ∀ (pre : List String) (f : String) (rest : List String),
      (∀ g ∈ pre, readmeNonMatch repo ref g = true) →
      readmeQualifies repo ref f = true →
      tryReadmes repo ref (pre ++ f :: rest) = some (readmeTextOf repo ref f) := by
  intro pre
  induction pre with
  | nil =>
    intro f rest _ hq
    unfold readmeQualifies at hq
    simp only [List.nil_append, tryReadmes]
    cases hr : repo.contents f ref with
    | err =>
      simp only [hr] at hq
      simp at hq
    | ok resp =>
      simp only [hr] at hq
      simp only [Bool.and_eq_true, beq_iff_eq] at hq
      obtain ⟨hcon, henc⟩ := hq
      cases hcc : resp.content with
      | none =>
        rw [hcc] at hcon
        simp at hcon
      | some blob => simp [hcc, henc, readmeTextOf, hr]
  | cons g pre2 ih =>
    intro f rest hpre hq
    have hg := hpre g (List.mem_cons_self _ _)
    unfold readmeNonMatch readmeQualifies at hg
    simp only [List.cons_append, tryReadmes]
    cases hr : repo.contents g ref with
    | err =>
      simp only [hr] at hg
      simp at hg
    | ok resp =>
      simp only [hr] at hg
      cases hcc : resp.content with
      | none => simp [hr, hcc, ih f rest (fun x hx => hpre x (List.mem_cons_of_mem _ hx)) hq]
      | some blob =>
        cases hee : resp.encoding with
        | none =>
          simp [hr, hcc, hee, ih f rest (fun x hx => hpre x (List.mem_cons_of_mem _ hx)) hq]
        | some enc =>
          rw [hcc, hee] at hg
          have hne : enc ≠ "base64" := by
            intro hceq
            rw [hceq] at hg
            simp at hg
          simp [hr, hcc, hee, hne, ih f rest (fun x hx => hpre x (List.mem_cons_of_mem _ hx)) hq]

theorem applyReadme_of_trigger (e : ManifestEntry) (repo : RepoData) (ref : Option String)
    (d0 : Obj)
    (htrig : getKey d0 "longdescription" = none ∨
      ∃ s0, getKey d0 "longdescription" = some (.str s0) ∧ s0.length < 100) :
    applyReadme e repo ref d0 =
      .ok (match tryReadmes repo ref (readmeNames e) with
           | some text => setKey d0 "longdescription" (.str text)
           | none => d0) := by
  unfold applyReadme
  rcases htrig with hnone | ⟨s0, hsome, hlen⟩
  · rw [hnone]
  · rw [hsome]
    simp [jsonLen?, hlen]

/-- C6 (amended to non-view-only records; for view-only records the 6135 floor
applies afterwards): the final minimumBinaryNinjaVersion is 0 when neither
version key is present in the descriptor, copies a legacy key that passes the
isinstance(int) test, is 0 when the legacy key fails that test, and the legacy
key itself never survives into the record. -/
theorem c6_min_version_normalization (e : ManifestEntry) (cache : List (String × String))
    (w : World) (r : Obj) (sub : List String)
    (hsite : e.site = none) (hview : e.view_only = false)
    (h : getPluginJson e cache w = (.ok r, sub)) :
    getKey r "minimumbinaryninjaversion" = none ∧
    ∃ c1 c2, stage1 e w = .ok c1 ∧ stage2 e w c1 = .ok c2 ∧
      (getKey c2.descriptor "minimumbinaryninjaversion" = none →
        getKey c2.descriptor "minimumBinaryNinjaVersion" = none →
        getKey r "minimumBinaryNinjaVersion" = some (.int 0)) ∧
      (∀ v, getKey c2.descriptor "minimumbinaryninjaversion" = some v →
        isInstInt v = true → getKey r "minimumBinaryNinjaVersion" = some v) ∧
      (∀ v, getKey c2.descriptor "minimumbinaryninjaversion" = some v →
        isInstInt v = false → getKey r "minimumBinaryNinjaVersion" = some (.int 0)) := by
  obtain ⟨c1, c2, s, h1, h2, hb, _⟩ := getPluginJson_ok_inv e cache w r sub hsite h
  obtain ⟨lu, fn, hlu, hfn, hr⟩ := buildRecord_ok_inv w e c1 c2 s r hb
  have hc1view : c1.view_only = false := by
    obtain ⟨t0, tl0, ti0, hv, _⟩ := stage1_ok_nonview e w c1 h1 hview
    exact hv
  subst hr
  refine ⟨assembleRecord_legacyMin e c1 c2 s lu fn, c1, c2, h1, h2, ?_, ?_, ?_⟩
  · intro hleg hcur
    rw [assembleRecord_min_nonview e c1 c2 s lu fn hc1view]
    simp [hleg, hcur]
  · intro v hleg hint
    rw [assembleRecord_min_nonview e c1 c2 s lu fn hc1view]
    simp [hleg, hint]
  · intro v hleg hint
    rw [assembleRecord_min_nonview e c1 c2 s lu fn hc1view]
    simp [hleg, hint]

theorem c6_witness :
    getKey recTag "minimumbinaryninjaversion" = none ∧
    getKey recTag "minimumBinaryNinjaVersion" = some (.int 42) := by
  obtain ⟨hleg, c1, c2, h1, h2, hcaseN, hcaseI, hcaseC⟩ :=
    c6_min_version_normalization eTag [] wTag recTag [] rfl rfl (by rfl)
  have h1c : stage1 eTag wTag =
      .ok ⟨false, some ⟨none, "v1", 100⟩, some "v1", some "sha1", some "https://z/v1.zip"⟩ := by
    rfl
  rw [h1c] at h1
  injection h1 with hc1
  subst hc1
  have h2c : stage2 eTag wTag
      ⟨false, some ⟨none, "v1", 100⟩, some "v1", some "sha1", some "https://z/v1.zip"⟩ =
      .ok ⟨projAB, [("minimumbinaryninjaversion", .int 42)], ""⟩ := by
    rfl
  rw [h2c] at h2
  injection h2 with hc2
  subst hc2
  exact ⟨hleg, hcaseI (.int 42) rfl rfl⟩

theorem c6_counterexample :
    (wView.repos "a/b").contents "plugin.json" none =
      .ok ⟨some ⟨"", some (.obj [])⟩, some "base64"⟩ ∧
    (getPluginJson eView [] wView).1 = .ok recView ∧
    getKey recView "minimumbinaryninjaversion" = none ∧
    getKey recView "minimumBinaryNinjaVersion" = some (.int 6135) :=
  ⟨rfl, rfl, rfl, rfl⟩

/-- C4 (amended to flat descriptors; for a descriptor wrapped in the legacy
envelope the check and the backfill are applied to the envelope object before
unwrapping, so a fetched README text is discarded and the inner description
retained): when the long description is absent or shorter than 100 characters,
the README candidates are tried in order (subdirectory-qualified names first
when a subdir is declared), the first response carrying base64 content becomes
the record long description, and when no candidate qualifies the original
description is kept unchanged. -/
theorem c4_readme_backfill_flat (e : ManifestEntry) (cache : List (String × String))
    (w : World) (r : Obj) (sub : List String) (c1 : Ctx1) (resp : ContentResp)
    (blob : Blob) (d0 : Obj)
    (hsite : e.site = none)
    (h : getPluginJson e cache w = (.ok r, sub))
    (h1 : stage1 e w = .ok c1)
    (hd : (w.repos e.name).contents (descPath e)
      (if c1.view_only then none else c1.effTag) = .ok resp)
    (hcon : resp.content = some blob)
    (hjson : blob.json = some (.obj d0))
    (hflat : getKey d0 "plugin" = none)
    (htrig : getKey d0 "longdescription" = none ∨
      ∃ s0, getKey d0 "longdescription" = some (.str s0) ∧ s0.length < 100) :
    (∀ pre f rest, readmeNames e = pre ++ f :: rest →
      (∀ g ∈ pre, readmeNonMatch (w.repos e.name)
        (if c1.view_only then none else c1.effTag) g = true) →
      readmeQualifies (w.repos e.name) (if c1.view_only then none else c1.effTag) f = true →
      getKey r "longdescription" = some (.str (readmeTextOf (w.repos e.name)
        (if c1.view_only then none else c1.effTag) f))) ∧
    ((∀ f ∈ readmeNames e, readmeQualifies (w.repos e.name)
        (if c1.view_only then none else c1.effTag) f = false) →
      getKey r "longdescription" = getKey d0 "longdescription") ∧
    (∀ sd, e.subdir = some sd →
      readmeNames e =
        (["README.md", "README.MD", "readme.md", "README", "readme", "Readme.md"].map
          (fun x => sd ++ "/" ++ x)) ++
        ["README.md", "README.MD", "readme.md", "README", "readme", "Readme.md"]) := by
  obtain ⟨c1x, c2, s, h1x, h2, hb, _⟩ := getPluginJson_ok_inv e cache w r sub hsite h
  rw [h1] at h1x
  injection h1x with hc1x
  subst hc1x
  obtain ⟨hp, d0x, d1, hdx, ha, hu⟩ := stage2_ok_inv e w c1 c2 h2
  have hdcomp : fetchDescriptor e (w.repos e.name)
      (if c1.view_only then none else c1.effTag) = .ok d0 := by
    simp [fetchDescriptor, hd, hcon, hjson]
  rw [hdcomp] at hdx
  injection hdx with hd0x
  subst hd0x
  have hac := applyReadme_of_trigger e (w.repos e.name)
    (if c1.view_only then none else c1.effTag) d0 htrig
  rw [hac] at ha
  injection ha with hd1
  have hplugin : getKey d1 "plugin" = none := by
    rw [← hd1]
    cases htr : tryReadmes (w.repos e.name)
        (if c1.view_only then none else c1.effTag) (readmeNames e) with
    | some text => simp [hflat]
    | none => simp [hflat]
  have hc2d : c2.descriptor = d1 := by
    unfold unwrapEnvelope at hu
    rw [hplugin] at hu
    injection hu with h3
    exact h3.symm
  obtain ⟨lu, fn, hlu, hfn, hr⟩ := buildRecord_ok_inv w e c1 c2 s r hb
  subst hr
  have hld : getKey (assembleRecord e c1 c2 s lu fn) "longdescription" =
      getKey d1 "longdescription" := by
    rw [assembleRecord_longdescription, hc2d]
  refine ⟨?_, ?_, ?_⟩
  · intro pre f rest hdecomp hpre hq
    rw [hld, ← hd1]
    rw [hdecomp] at *
    rw [tryReadmes_first (w.repos e.name) (if c1.view_only then none else c1.effTag)
      pre f rest hpre hq]
    simp
  · intro hnoneq
    rw [hld, ← hd1]
    rw [tryReadmes_none (w.repos e.name) (if c1.view_only then none else c1.effTag)
      (readmeNames e) hnoneq]
  · intro sd hsd
    simp [readmeNames, hsd]

theorem c4_witness :
    getKey recFlat "longdescription" = some (.str "A much longer readme body.") := by
  have H := c4_readme_backfill_flat eTag [] wFlatReadme recFlat [] 
    ⟨false, some ⟨none, "v1", 100⟩, some "v1", some "sha1", some "https://z/v1.zip"⟩
    ⟨some ⟨"", some (.obj [("longdescription", .str "short")])⟩, some "base64"⟩
    ⟨"", some (.obj [("longdescription", .str "short")])⟩
    [("longdescription", .str "short")]
    rfl (by rfl) (by rfl) rfl rfl rfl rfl
    (Or.inr ⟨"short", rfl, by decide⟩)
  exact H.1 [] "README.md" ["README.MD", "readme.md", "README", "readme", "Readme.md"]
    rfl (by simp) rfl

theorem c4_counterexample :
    (getPluginJson eTag [] wEnvReadme).1 = .ok recEnv ∧
    readmeQualifies (wEnvReadme.repos "a/b") (some "v1") "README.md" = true ∧
    readmeTextOf (wEnvReadme.repos "a/b") (some "v1") "README.md" =
      "A much longer readme body." ∧
    getKey recEnv "longdescription" = some (.str "short") :=
  ⟨rfl, rfl, rfl, rfl⟩

theorem run_skip_entry (w : World) (prev : Option (List Obj))
    (cache : List (String × String)) (oldP : List (String × Int)) (e : ManifestEntry)
    (hseeds : runSeeds prev = .ok (cache, oldP))
    (he : (getPluginJson e cache w).1 = .skip) (pre post : List ManifestEntry) :
    Outcome.map runView (run (pre ++ e :: post) prev w) =
    Outcome.map runView (run (pre ++ post) prev w) := by
  have hfst := processEntries_skip_middle w cache e he pre post [] [] []
  simp only [run, hseeds]
  cases p1 : processEntries w cache (pre ++ e :: post) [] [] with
  | ok pr1 =>
    cases p2 : processEntries w cache (pre ++ post) [] [] with
    | ok pr2 =>
      rw [p1, p2] at hfst
      obtain ⟨allP1, sub1⟩ := pr1
      obtain ⟨allP2, sub2⟩ := pr2
      simp only [Outcome.map] at hfst
      injection hfst with hall
      subst hall
      rfl
    | skip =>
      rw [p1, p2] at hfst
      exact absurd hfst (by simp [Outcome.map])
    | crash m =>
      rw [p1, p2] at hfst
      exact absurd hfst (by simp [Outcome.map])
  | skip =>
    cases p2 : processEntries w cache (pre ++ post) [] [] with
    | ok pr2 =>
      rw [p1, p2] at hfst
      exact absurd hfst (by simp [Outcome.map])
    | skip => rfl
    | crash m =>
      rw [p1, p2] at hfst
      exact absurd hfst (by simp [Outcome.map])
  | crash m =>
    cases p2 : processEntries w cache (pre ++ post) [] [] with
    | ok pr2 =>
      rw [p1, p2] at hfst
      exact absurd hfst (by simp [Outcome.map])
    | skip =>
      rw [p1, p2] at hfst
      exact absurd hfst (by simp [Outcome.map])
    | crash m2 =>
      rw [p1, p2] at hfst
      simp only [Outcome.map] at hfst
      injection hfst with hmm
      rw [hmm]

/-- C1 (amended): an entry failure that the resolver reports by returning no
record is isolated — the batch continues and the run result is as if the entry
were absent — but a malformed plugin descriptor raises an uncaught exception
inside the resolver, and since the batch loop has no handler that exception
aborts the entire run. -/
theorem c1_failure_isolation (w : World) (prev : Option (List Obj))
    (cache : List (String × String)) (oldP : List (String × Int)) (e : ManifestEntry)
    (hsite : e.site = none) (hseeds : runSeeds prev = .ok (cache, oldP)) :
    ((getPluginJson e cache w).1 = .skip →
      ∀ pre post, Outcome.map runView (run (pre ++ e :: post) prev w) =
        Outcome.map runView (run (pre ++ post) prev w)) ∧
    (∀ c1 proj resp blob, stage1 e w = .ok c1 →
      (c1.zip = none ∨ ∃ z s sub0, c1.zip = some z ∧
        resolveShortUrl z cache w = (.ok s, sub0)) →
      (w.repos e.name).project = .ok proj →
      (w.repos e.name).contents (descPath e)
        (if c1.view_only then none else c1.effTag) = .ok resp →
      resp.content = some blob → blob.json = none →
      (getPluginJson e cache w).1 = .crash "Invalid json when parsing plugin.json") ∧
    (∀ m pre post, (getPluginJson e cache w).1 = .crash m →
      (∀ x ∈ pre, (getPluginJson x cache w).1.isCrash = false) →
      run (pre ++ e :: post) prev w = .crash m) := by
  refine ⟨?_, ?_, ?_⟩
  · intro he pre post
    exact run_skip_entry w prev cache oldP e hseeds he pre post
  · intro c1 proj resp blob h1 hshort hp hd hcon hjson
    have h2 : stage2 e w c1 = .crash "Invalid json when parsing plugin.json" := by
      simp [stage2, hp, fetchDescriptor, hd, hcon, hjson]
    rcases hshort with hzn | ⟨z, s, sub0, hzs, hrs⟩
    · simp [getPluginJson_fst_eq e w cache hsite, h1, hzn, h2]
    · have hfst : (resolveShortUrl z cache w).1 = .ok s := by rw [hrs]
      simp [getPluginJson_fst_eq e w cache hsite, h1, hzs, hfst, h2]
  · intro m pre post hcrash hpre
    have hrun := processEntries_crash_middle w cache e m hcrash pre post [] [] hpre
    simp [run, hseeds, hrun]

theorem c1_witness :
    (getPluginJson eTag [] wBadJson).1 = .crash "Invalid json when parsing plugin.json" ∧
    run [eTag] none wBadJson = .crash "Invalid json when parsing plugin.json" := by
  have H := c1_failure_isolation wBadJson none [] [] eTag rfl rfl
  have hcrash := H.2.1
    ⟨false, some ⟨none, "v1", 100⟩, some "v1", some "sha1", some "https://z/v1.zip"⟩
    projAB ⟨some ⟨"", none⟩, some "base64"⟩ ⟨"", none⟩ (by rfl)
    (Or.inr ⟨"https://z/v1.zip", "", [], rfl, by rfl⟩) rfl rfl rfl rfl
  exact ⟨hcrash, H.2.2 _ [] [] hcrash (by simp)⟩

theorem c1_counterexample :
    run [eTag] none wBadJson = .crash "Invalid json when parsing plugin.json" := by rfl

theorem alookup_mem {α : Type} (l : List (String × α)) (k : String) (v : α)
    (h : alookup l k = some v) : (k, v) ∈ l := by
  induction l with
  | nil => simp [alookup] at h
  | cons hd tl ih =>
    obtain ⟨k0, v0⟩ := hd
    by_cases h0 : k0 = k
    · subst h0
      simp only [alookup, if_pos rfl] at h
      injection h with h2
      subst h2
      exact List.mem_cons_self _ _
    · simp only [alookup, if_neg h0] at h
      exact List.mem_cons_of_mem _ (ih h)

theorem alookup_of_mem_nodup {α : Type} (l : List (String × α))
    (hnd : (l.map Prod.fst).Nodup) (k : String) (v : α) (h : (k, v) ∈ l) :
    alookup l k = some v := by
  induction l with
  | nil => simp at h
  | cons hd tl ih =>
    obtain ⟨k0, v0⟩ := hd
    simp only [List.map_cons, List.nodup_cons] at hnd
    rcases List.mem_cons.mp h with heq | hmem
    · injection heq with h1 h2
      simp [alookup, h1.symm, h2.symm]
    · have hk0 : k0 ≠ k := by
        intro hcon
        subst hcon
        exact hnd.1 (by simpa using List.mem_map_of_mem Prod.fst hmem)
      simp only [alookup, if_neg hk0]
      exact ih hnd.2 hmem

theorem diff_fold_eq (oldP : List (String × Int)) :
    ∀ (l : List (String × Obj)) (acc : List String × List String),
      l.foldl (fun acc x =>
        match alookup oldP x.1 with
        | none => (acc.1 ++ [x.1], acc.2)
        | some old => if lastUpdatedOf x.2 > old then (acc.1, acc.2 ++ [x.1]) else acc) acc =
      (acc.1 ++ (l.filter (fun x => (alookup oldP x.1).isNone)).map Prod.fst,
       acc.2 ++ (l.filter (fun x =>
         match alookup oldP x.1 with
         | none => false
         | some old => decide (lastUpdatedOf x.2 > old))).map Prod.fst) := by
  intro l
  induction l with
  | nil => intro acc; simp
  | cons x rest ih =>
    intro acc
    simp only [List.foldl_cons]
    cases ho : alookup oldP x.1 with
    | none =>
      have f1 : List.filter (fun y => (alookup oldP y.1).isNone) (x :: rest) =
          x :: List.filter (fun y => (alookup oldP y.1).isNone) rest :=
        List.filter_cons_of_pos (by simp [ho])
      have f2 : List.filter (fun y =>
            match alookup oldP y.1 with
            | none => false
            | some old => decide (lastUpdatedOf y.2 > old)) (x :: rest) =
          List.filter (fun y =>
            match alookup oldP y.1 with
            | none => false
            | some old => decide (lastUpdatedOf y.2 > old)) rest :=
        List.filter_cons_of_neg (by simp [ho])
      simp only [ho]
      rw [f1, f2, ih]
      simp [List.append_assoc]
    | some old =>
      have f1 : List.filter (fun y => (alookup oldP y.1).isNone) (x :: rest) =
          List.filter (fun y => (alookup oldP y.1).isNone) rest :=
        List.filter_cons_of_neg (by simp [ho])
      by_cases hgt : lastUpdatedOf x.2 > old
      · have f2 : List.filter (fun y =>
              match alookup oldP y.1 with
              | none => false
              | some old => decide (lastUpdatedOf y.2 > old)) (x :: rest) =
            x :: List.filter (fun y =>
              match alookup oldP y.1 with
              | none => false
              | some old => decide (lastUpdatedOf y.2 > old)) rest :=
          List.filter_cons_of_pos (by simp [ho, hgt])
        simp only [ho]
        rw [if_pos hgt, f1, f2, ih]
        simp [List.append_assoc]
      · have f2 : List.filter (fun y =>
              match alookup oldP y.1 with
              | none => false
              | some old => decide (lastUpdatedOf y.2 > old)) (x :: rest) =
            List.filter (fun y =>
              match alookup oldP y.1 with
              | none => false
              | some old => decide (lastUpdatedOf y.2 > old)) rest :=
          List.filter_cons_of_neg (by simp [ho, hgt])
        simp only [ho]
        rw [if_neg hgt, f1, f2, ih]

theorem list_contains_iff (l : List String) (n : String) :
    l.contains n = true ↔ n ∈ l := by
  induction l with
  | nil => simp
  | cons hd tl ih =>
    simp only [List.contains_cons, Bool.or_eq_true, beq_iff_eq, ih, List.mem_cons]

/-- C3: the diff classifies an entry as new iff its key is absent from the
previous registry, as updated iff the key is present with a strictly larger
new lastUpdated, and as removed iff a previously known key is absent from the
newly resolved name list; each removed key appears exactly once, and the
three lists are pairwise disjoint. -/
theorem c3_diff_classification (allP : List (String × Obj)) (oldP : List (String × Int))
    (hA : (allP.map Prod.fst).Nodup) (hO : (oldP.map Prod.fst).Nodup) :
    (∀ n, n ∈ (diffRegistry allP oldP).1 ↔
      n ∈ allP.map Prod.fst ∧ alookup oldP n = none) ∧
    (∀ n, n ∈ (diffRegistry allP oldP).2.1 ↔
      ∃ r lu, alookup allP n = some r ∧ alookup oldP n = some lu ∧ lastUpdatedOf r > lu) ∧
    (∀ n, n ∈ (diffRegistry allP oldP).2.2 ↔
      n ∈ oldP.map Prod.fst ∧ n ∉ allP.map Prod.fst) ∧
    (∀ n, n ∈ oldP.map Prod.fst → n ∉ allP.map Prod.fst →
      (diffRegistry allP oldP).2.2.count n = 1) ∧
    (∀ n, ¬(n ∈ (diffRegistry allP oldP).1 ∧ n ∈ (diffRegistry allP oldP).2.1)) ∧
    (∀ n, ¬(n ∈ (diffRegistry allP oldP).1 ∧ n ∈ (diffRegistry allP oldP).2.2)) ∧
    (∀ n, ¬(n ∈ (diffRegistry allP oldP).2.1 ∧ n ∈ (diffRegistry allP oldP).2.2)) := by
  have hfold := diff_fold_eq oldP allP ([], [])
  have hnew : (diffRegistry allP oldP).1 =
      (allP.filter (fun x => (alookup oldP x.1).isNone)).map Prod.fst := by
    simp only [diffRegistry, hfold, List.nil_append]
  have hupd : (diffRegistry allP oldP).2.1 =
      (allP.filter (fun x =>
        match alookup oldP x.1 with
        | none => false
        | some old => decide (lastUpdatedOf x.2 > old))).map Prod.fst := by
    simp only [diffRegistry, hfold, List.nil_append]
  have hrem : (diffRegistry allP oldP).2.2 =
      (oldP.map Prod.fst).filter (fun n => !((allP.map Prod.fst).contains n)) := by
    simp only [diffRegistry]
  have memNew : ∀ n, n ∈ (diffRegistry allP oldP).1 ↔
      n ∈ allP.map Prod.fst ∧ alookup oldP n = none := by
    intro n
    rw [hnew]
    constructor
    · intro hm
      obtain ⟨x, hx, hxn⟩ := List.mem_map.mp hm
      obtain ⟨hxmem, hxpred⟩ := List.mem_filter.mp hx
      subst hxn
      exact ⟨List.mem_map_of_mem Prod.fst hxmem, Option.isNone_iff_eq_none.mp hxpred⟩
    · rintro ⟨hmem, hnone⟩
      obtain ⟨x, hxmem, hxn⟩ := List.mem_map.mp hmem
      refine List.mem_map.mpr ⟨x, List.mem_filter.mpr ⟨hxmem, ?_⟩, hxn⟩
      rw [hxn, hnone]
      rfl
  have memUpd : ∀ n, n ∈ (diffRegistry allP oldP).2.1 ↔
      ∃ r lu, alookup allP n = some r ∧ alookup oldP n = some lu ∧ lastUpdatedOf r > lu := by
    intro n
    rw [hupd]
    constructor
    · intro hm
      obtain ⟨x, hx, hxn⟩ := List.mem_map.mp hm
      obtain ⟨hxmem, hxpred⟩ := List.mem_filter.mp hx
      cases hocase : alookup oldP x.1 with
      | none =>
        rw [hocase] at hxpred
        simp at hxpred
      | some old =>
        rw [hocase] at hxpred
        simp only [decide_eq_true_eq] at hxpred
        subst hxn
        refine ⟨x.2, old, ?_, hocase, hxpred⟩
        exact alookup_of_mem_nodup allP hA x.1 x.2 hxmem
    · rintro ⟨r, lu, hr, hlu, hgt⟩
      have hmem : (n, r) ∈ allP := alookup_mem allP n r hr
      refine List.mem_map.mpr ⟨(n, r), List.mem_filter.mpr ⟨hmem, ?_⟩, rfl⟩
      rw [hlu]
      simpa using hgt
  have memRem : ∀ n, n ∈ (diffRegistry allP oldP).2.2 ↔
      n ∈ oldP.map Prod.fst ∧ n ∉ allP.map Prod.fst := by
    intro n
    rw [hrem]
    rw [List.mem_filter]
    constructor
    · rintro ⟨hmem, hpred⟩
      refine ⟨hmem, fun hcon => ?_⟩
      rw [(list_contains_iff _ _).mpr hcon] at hpred
      simp at hpred
    · rintro ⟨hmem, hnmem⟩
      refine ⟨hmem, ?_⟩
      cases hc : (List.map Prod.fst allP).contains n with
      | false => rfl
      | true => exact absurd ((list_contains_iff _ _).mp hc) hnmem
  refine ⟨memNew, memUpd, memRem, ?_, ?_, ?_, ?_⟩
  · intro n hmem hnmem
    have hnd : ((oldP.map Prod.fst).filter
        (fun n => !((allP.map Prod.fst).contains n))).Nodup := hO.filter _
    rw [hrem]
    rw [← hrem]
    have hin : n ∈ (diffRegistry allP oldP).2.2 := (memRem n).mpr ⟨hmem, hnmem⟩
    rw [hrem] at hin ⊢
    exact List.count_eq_one_of_mem hnd hin
  · intro n ⟨h1, h2⟩
    obtain ⟨_, hnone⟩ := (memNew n).mp h1
    obtain ⟨r, lu, _, hsome, _⟩ := (memUpd n).mp h2
    rw [hnone] at hsome
    exact absurd hsome (by simp)
  · intro n ⟨h1, h2⟩
    obtain ⟨hk, _⟩ := (memNew n).mp h1
    obtain ⟨_, hnk⟩ := (memRem n).mp h2
    exact hnk hk
  · intro n ⟨h1, h2⟩
    obtain ⟨r, lu, hr, _, _⟩ := (memUpd n).mp h1
    obtain ⟨_, hnk⟩ := (memRem n).mp h2
    exact hnk (mem_keys_of_alookup_isSome allP n (by rw [hr]; rfl))


theorem c3_witness :
    ("b" ∈ (diffRegistry allPc oldPc).1 ↔
      "b" ∈ allPc.map Prod.fst ∧ alookup oldPc "b" = none) ∧
    (diffRegistry allPc oldPc).1 = ["b"] ∧
    (diffRegistry allPc oldPc).2.1 = ["a"] ∧
    (diffRegistry allPc oldPc).2.2 = ["c"] :=
  ⟨(c3_diff_classification allPc oldPc (by decide) (by decide)).1 "b", rfl, rfl, rfl⟩

theorem processEntries_submitted (w : World) (cache : List (String × String)) :
    ∀ (l : List ManifestEntry) (acc : List (String × Obj)) (sub : List String)
      (r : List (String × Obj)) (s : List String),
      processEntries w cache l acc sub = .ok (r, s) →
      s = sub ++ l.flatMap (fun e => (getPluginJson e cache w).2) := by
  intro l
  induction l with
  | nil =>
    intro acc sub r s h
    simp only [processEntries] at h
    injection h with h
    injection h with _ h2
    simp [h2.symm]
  | cons e rest ih =>
    intro acc sub r s h
    simp only [processEntries] at h
    cases hg : getPluginJson e cache w with
    | mk o s0 =>
      rw [hg] at h
      cases o with
      | ok rec =>
        have := ih (aset acc e.name rec) (sub ++ s0) r s h
        simp [this, hg, List.append_assoc]
      | skip =>
        have := ih acc (sub ++ s0) r s h
        simp [this, hg, List.append_assoc]
      | crash m => exact absurd h (by simp)

/-- C9 (amended): the short-URL cache is seeded once at run start from every
prior-registry record carrying a non-empty `packageShortUrl` (contributing its
`packageUrl` → `packageShortUrl` pair); during the run the cache is read-only:
a cache hit returns the cached short URL without contacting the shortening
service, a miss with a configured shortener submits the artifact URL, but the
freshly issued short URL is NOT inserted back, so every manifest entry is
resolved against the same initial cache and a shared artifact URL is submitted
once per entry that reaches the shortening step. -/
theorem c9_short_url_cache (w : World) :
    (∀ p rest acc s u, getKey p "packageShortUrl" = some (Json.str s) →
        s.length > 0 → getKey p "packageUrl" = some (Json.str u) →
        seedShortUrls (p :: rest) acc = seedShortUrls rest (aset acc u s)) ∧
    (∀ p rest acc, getKey p "packageShortUrl" = none →
        seedShortUrls (p :: rest) acc = seedShortUrls rest acc) ∧
    (∀ p rest acc, getKey p "packageShortUrl" = some (Json.str "") →
        seedShortUrls (p :: rest) acc = seedShortUrls rest acc) ∧
    (∀ z cache s, alookup cache z = some s →
        resolveShortUrl z cache w = (.ok s, [])) ∧
    (∀ z cache url, alookup cache z = none → w.shortenerCfg = some url →
        url ≠ "" → (resolveShortUrl z cache w).2 = [z]) ∧
    (∀ m prev cache oldP res,
        runSeeds prev = Outcome.ok (cache, oldP) →
        run m prev w = Outcome.ok res →
        res.submitted = m.flatMap (fun e => (getPluginJson e cache w).2)) := by
  refine ⟨?_, ?_, ?_, ?_, ?_, ?_⟩
  · intro p rest acc s u hs hlen hu
    simp only [seedShortUrls, hs, hu, if_pos hlen]
  · intro p rest acc hs
    simp only [seedShortUrls, hs]
  · intro p rest acc hs
    simp only [seedShortUrls, hs]
    rfl
  · intro z cache s h
    simp only [resolveShortUrl, h]
  · intro z cache url hn hc hne
    simp only [resolveShortUrl, hn, hc, if_neg hne]
    cases pyStartsWith (if (w.shorten z).error = "" then (w.shorten z).url_short else "") "http" <;> rfl
  · intro m prev cache oldP res hseeds hrun
    simp only [run, hseeds] at hrun
    cases hp : processEntries w cache m [] [] with
    | crash msg => rw [hp] at hrun; exact absurd hrun (by simp)
    | skip => rw [hp] at hrun; exact absurd hrun (by simp)
    | ok pr =>
      rw [hp] at hrun
      injection hrun with hrun
      have := processEntries_submitted w cache m [] [] pr.1 pr.2 (by rw [hp])
      rw [← hrun]
      simpa using this

theorem c9_witness :
    resShared.submitted = ["https://z/shared.zip", "https://z/shared.zip"] ∧
    resolveShortUrl "https://z/shared.zip"
        [("https://z/shared.zip", "http://s/1")] wShared
      = (Outcome.ok "http://s/1", []) :=
  ⟨((c9_short_url_cache wShared).2.2.2.2.2 [eShared1, eShared2] none [] [] resShared
      rfl rfl).trans rfl,
   (c9_short_url_cache wShared).2.2.2.1 "https://z/shared.zip"
      [("https://z/shared.zip", "http://s/1")] "http://s/1" rfl⟩

/-- C9, counterexample to the spec as written: one run with two manifest
entries sharing a zipball URL submits that URL to the shortening service
twice — the freshly issued short URL was never inserted into the cache. -/
theorem c9_counterexample :
    Outcome.map RunResult.submitted (run [eShared1, eShared2] none wShared)
      = Outcome.ok ["https://z/shared.zip", "https://z/shared.zip"] := rfl

theorem alookup_eq_none_of_not_mem_keys {α : Type} (l : List (String × α)) (n : String)
    (h : n ∉ l.map Prod.fst) : alookup l n = none := by
  cases ha : alookup l n with
  | none => rfl
  | some v => exact absurd (mem_keys_of_alookup_isSome l n (by rw [ha]; rfl)) h

theorem mem_aset {α : Type} : ∀ (l : List (String × α)) (k : String) (v : α) (p : String × α),
    p ∈ aset l k v → p ∈ l ∨ p = (k, v) := by
  intro l
  induction l with
  | nil =>
    intro k v p hp
    simp only [aset, List.mem_singleton] at hp
    exact Or.inr hp
  | cons hd tl ih =>
    obtain ⟨k0, v0⟩ := hd
    intro k v p hp
    simp only [aset] at hp
    by_cases hk : k0 = k
    · rw [if_pos hk] at hp
      rcases List.mem_cons.mp hp with he | ht
      · exact Or.inr he
      · exact Or.inl (List.mem_cons_of_mem _ ht)
    · rw [if_neg hk] at hp
      rcases List.mem_cons.mp hp with he | ht
      · exact Or.inl (he ▸ List.mem_cons_self _ _)
      · rcases ih k v p ht with h1 | h2
        · exact Or.inl (List.mem_cons_of_mem _ h1)
        · exact Or.inr h2

theorem mem_keys_aset {α : Type} (l : List (String × α)) (k : String) (v : α) (n : String)
    (h : n ∈ (aset l k v).map Prod.fst) : n ∈ l.map Prod.fst ∨ n = k := by
  obtain ⟨p, hp, hpn⟩ := List.mem_map.mp h
  rcases mem_aset l k v p hp with h1 | h2
  · exact Or.inl (hpn ▸ List.mem_map_of_mem _ h1)
  · subst h2
    exact Or.inr hpn.symm

theorem aset_keys_nodup {α : Type} : ∀ (l : List (String × α)) (k : String) (v : α),
    (l.map Prod.fst).Nodup → ((aset l k v).map Prod.fst).Nodup := by
  intro l
  induction l with
  | nil =>
    intro k v _
    simp [aset]
  | cons hd tl ih =>
    obtain ⟨k0, v0⟩ := hd
    intro k v hnd
    simp only [List.map_cons, List.nodup_cons] at hnd
    simp only [aset]
    by_cases hk : k0 = k
    · rw [if_pos hk]
      simp only [List.map_cons]
      exact List.nodup_cons.mpr ⟨hk ▸ hnd.1, hnd.2⟩
    · rw [if_neg hk]
      simp only [List.map_cons]
      refine List.nodup_cons.mpr ⟨?_, ih k v hnd.2⟩
      intro hcon
      rcases mem_keys_aset tl k v k0 hcon with h1 | h2
      · exact hnd.1 h1
      · exact hk h2

theorem getPluginJson_record_shape (e : ManifestEntry) (w : World) (r : Obj)
    (sub : List String) (hsite : e.site = none)
    (h : getPluginJson e [] w = (.ok r, sub)) :
    getKey r "lastUpdated" = some (.int (lastUpdatedOf r)) ∧
    (∃ pd fn, getKey r "projectData" = some (.obj pd) ∧
      getKey pd "full_name" = some (.str fn)) ∧
    ((getKey r "packageShortUrl" = some (.str placeholderUrl) ∧
      getKey r "packageUrl" = some (.str placeholderUrl)) ∨
     (∃ u s, getKey r "packageUrl" = some (.str u) ∧
       getKey r "packageShortUrl" = some (.str s) ∧
       (s = "" ∨ (resolveShortUrl u [] w).1 = .ok s))) := by
  obtain ⟨c1, c2, s, h1, h2, hb, hor⟩ := getPluginJson_ok_inv e [] w r sub hsite h
  obtain ⟨lu, fn, hlu, hfn, hr⟩ := buildRecord_ok_inv w e c1 c2 s r hb
  subst hr
  refine ⟨?_, ?_, ?_⟩
  · simp [lastUpdatedOf, assembleRecord_lastUpdated]
  · refine ⟨setKey c2.proj "updated_at" (.str (isoRender lu)), fn,
      assembleRecord_projectData e c1 c2 s lu fn, ?_⟩
    rw [getKey_setKey_ne _ _ _ _ (by decide)]
    exact hfn
  · cases hview : c1.view_only
    · right
      refine ⟨c1.zip.getD "", s, ?_, ?_, ?_⟩
      · simp [assembleRecord_packageUrl, hview]
      · simp [assembleRecord_packageShortUrl, hview]
      · rcases hor with ⟨hzn, hs0, _⟩ | ⟨z, hz, hres⟩
        · exact Or.inl hs0
        · right
          rw [hz]
          simp only [Option.getD_some]
          rw [hres]
    · left
      constructor
      · simp [assembleRecord_packageShortUrl, hview]
      · simp [assembleRecord_packageUrl, hview]

theorem processEntries_mem_inv (w : World) (cache : List (String × String))
    (Q : String × Obj → Prop)
    (hstep : ∀ e r s, e.site = none → getPluginJson e cache w = (.ok r, s) →
      Q (e.name, r)) :
    ∀ (l : List ManifestEntry) (acc : List (String × Obj)) (sub : List String)
      (out : List (String × Obj)) (s : List String),
      (∀ e ∈ l, e.site = none) →
      processEntries w cache l acc sub = .ok (out, s) →
      (∀ p ∈ acc, Q p) → ∀ p ∈ out, Q p := by
  intro l
  induction l with
  | nil =>
    intro acc sub out s _ h hacc p hp
    simp only [processEntries] at h
    injection h with h
    injection h with h1 _
    exact hacc p (h1 ▸ hp)
  | cons e rest ih =>
    intro acc sub out s hsl h hacc p hp
    simp only [processEntries] at h
    rcases hg : getPluginJson e cache w with ⟨o, s0⟩
    rw [hg] at h
    cases o with
    | ok r =>
      refine ih (aset acc e.name r) (sub ++ s0) out s
        (fun x hx => hsl x (List.mem_cons_of_mem _ hx)) h ?_ p hp
      intro q hq
      rcases mem_aset acc e.name r q hq with hin | heq
      · exact hacc q hin
      · exact heq ▸ hstep e r s0 (hsl e (List.mem_cons_self _ _)) hg
    | skip =>
      exact ih acc (sub ++ s0) out s
        (fun x hx => hsl x (List.mem_cons_of_mem _ hx)) h hacc p hp
    | crash m => exact absurd h (by simp)

theorem processEntries_keys_nodup (w : World) (cache : List (String × String)) :
    ∀ (l : List ManifestEntry) (acc : List (String × Obj)) (sub : List String)
      (out : List (String × Obj)) (s : List String),
      processEntries w cache l acc sub = .ok (out, s) →
      (acc.map Prod.fst).Nodup → (out.map Prod.fst).Nodup := by
  intro l
  induction l with
  | nil =>
    intro acc sub out s h hnd
    simp only [processEntries] at h
    injection h with h
    injection h with h1 _
    exact h1 ▸ hnd
  | cons e rest ih =>
    intro acc sub out s h hnd
    simp only [processEntries] at h
    rcases hg : getPluginJson e cache w with ⟨o, s0⟩
    rw [hg] at h
    cases o with
    | ok r => exact ih _ _ _ _ h (aset_keys_nodup acc e.name r hnd)
    | skip => exact ih _ _ _ _ h hnd
    | crash m => exact absurd h (by simp)

theorem processEntries_fst_congr2 (w : World) (cache cache' : List (String × String)) :
    ∀ (l : List ManifestEntry),
      (∀ e ∈ l, (getPluginJson e cache w).1 = (getPluginJson e cache' w).1) →
      ∀ (acc : List (String × Obj)) (sub sub' : List String),
      Outcome.map Prod.fst (processEntries w cache l acc sub) =
      Outcome.map Prod.fst (processEntries w cache' l acc sub') := by
  intro l
  induction l with
  | nil => intro _ acc sub sub'; rfl
  | cons e rest ih =>
    intro hl acc sub sub'
    simp only [processEntries]
    rcases hg : getPluginJson e cache w with ⟨o, s0⟩
    rcases hg' : getPluginJson e cache' w with ⟨o', s0'⟩
    have ho : o = o' := by
      have hx := hl e (List.mem_cons_self _ _)
      rw [hg, hg'] at hx
      exact hx
    subst ho
    cases o with
    | ok r => exact ih (fun x hx => hl x (List.mem_cons_of_mem _ hx)) _ _ _
    | skip => exact ih (fun x hx => hl x (List.mem_cons_of_mem _ hx)) _ _ _
    | crash m => rfl

theorem seedShortUrls_shape (w : World) :
    ∀ (l : List Obj) (acc : List (String × String)),
      (∀ p ∈ l,
        (getKey p "packageShortUrl" = some (.str placeholderUrl) ∧
         getKey p "packageUrl" = some (.str placeholderUrl)) ∨
        (∃ u s, getKey p "packageUrl" = some (.str u) ∧
          getKey p "packageShortUrl" = some (.str s) ∧
          (s = "" ∨ (resolveShortUrl u [] w).1 = .ok s))) →
      (∀ z s', alookup acc z = some s' →
        (z = placeholderUrl ∧ s' = placeholderUrl) ∨
        (resolveShortUrl z [] w).1 = .ok s') →
      ∃ cache2, seedShortUrls l acc = .ok cache2 ∧
        ∀ z s', alookup cache2 z = some s' →
          (z = placeholderUrl ∧ s' = placeholderUrl) ∨
          (resolveShortUrl z [] w).1 = .ok s' := by
  intro l
  induction l with
  | nil =>
    intro acc _ hacc
    exact ⟨acc, rfl, hacc⟩
  | cons p rest ih =>
    intro acc hl hacc
    rcases hl p (List.mem_cons_self _ _) with ⟨hs, hu⟩ | ⟨u, s, hu, hs, hres⟩
    · have hstep : seedShortUrls (p :: rest) acc =
          seedShortUrls rest (aset acc placeholderUrl placeholderUrl) := by
        simp only [seedShortUrls, hs, hu]
        rw [if_pos (by decide)]
      have hinv : ∀ z s', alookup (aset acc placeholderUrl placeholderUrl) z = some s' →
          (z = placeholderUrl ∧ s' = placeholderUrl) ∨
          (resolveShortUrl z [] w).1 = .ok s' := by
        intro z s' hz
        by_cases hzp : z = placeholderUrl
        · subst hzp
          rw [alookup_aset_self] at hz
          injection hz with hz
          exact Or.inl ⟨rfl, hz.symm⟩
        · rw [alookup_aset_ne _ _ _ _ hzp] at hz
          exact hacc z s' hz
      obtain ⟨c2, he, hc⟩ := ih (aset acc placeholderUrl placeholderUrl)
        (fun q hq => hl q (List.mem_cons_of_mem _ hq)) hinv
      exact ⟨c2, hstep.trans he, hc⟩
    · by_cases hlen : s.length > 0
      · have hstep : seedShortUrls (p :: rest) acc =
            seedShortUrls rest (aset acc u s) := by
          simp only [seedShortUrls, hs, hu]
          rw [if_pos hlen]
        have hresok : (resolveShortUrl u [] w).1 = .ok s := by
          rcases hres with hse | hok
          · subst hse
            simp at hlen
          · exact hok
        have hinv : ∀ z s', alookup (aset acc u s) z = some s' →
            (z = placeholderUrl ∧ s' = placeholderUrl) ∨
            (resolveShortUrl z [] w).1 = .ok s' := by
          intro z s' hz
          by_cases hzu : z = u
          · subst hzu
            rw [alookup_aset_self] at hz
            injection hz with hz
            exact Or.inr (hz ▸ hresok)
          · rw [alookup_aset_ne _ _ _ _ hzu] at hz
            exact hacc z s' hz
        obtain ⟨c2, he, hc⟩ := ih (aset acc u s)
          (fun q hq => hl q (List.mem_cons_of_mem _ hq)) hinv
        exact ⟨c2, hstep.trans he, hc⟩
      · have hstep : seedShortUrls (p :: rest) acc = seedShortUrls rest acc := by
          simp only [seedShortUrls, hs]
          rw [if_neg hlen]
        obtain ⟨c2, he, hc⟩ := ih acc (fun q hq => hl q (List.mem_cons_of_mem _ hq)) hacc
        exact ⟨c2, hstep.trans he, hc⟩

theorem seedOldPlugins_eq :
    ∀ (l : List (String × Obj)) (acc : List (String × Int)),
      (∀ p ∈ l, getKey p.2 "lastUpdated" = some (.int (lastUpdatedOf p.2)) ∧
        ∃ pd, getKey p.2 "projectData" = some (.obj pd) ∧
          getKey pd "full_name" = some (.str p.1)) →
      seedOldPlugins (l.map Prod.snd) acc =
        .ok (l.foldl (fun a p => aset a p.1 (lastUpdatedOf p.2)) acc) := by
  intro l
  induction l with
  | nil => intro acc _; rfl
  | cons p rest ih =>
    intro acc hl
    obtain ⟨hlu, pd, hpd, hfn⟩ := hl p (List.mem_cons_self _ _)
    simp only [List.map_cons, seedOldPlugins, hpd, hfn, hlu, List.foldl_cons]
    exact ih (aset acc p.1 (lastUpdatedOf p.2)) (fun q hq => hl q (List.mem_cons_of_mem _ hq))

theorem alookup_foldl_aset {α β : Type} (f : α → β) :
    ∀ (l : List (String × α)) (acc : List (String × β)),
      (l.map Prod.fst).Nodup →
      ∀ n, alookup (l.foldl (fun a p => aset a p.1 (f p.2)) acc) n =
        match alookup l n with
        | some v => some (f v)
        | none => alookup acc n := by
  intro l
  induction l with
  | nil => intro acc _ n; rfl
  | cons p rest ih =>
    obtain ⟨k0, v0⟩ := p
    intro acc hnd n
    simp only [List.map_cons, List.nodup_cons] at hnd
    simp only [List.foldl_cons]
    rw [ih (aset acc k0 (f v0)) hnd.2 n]
    by_cases hk : k0 = n
    · subst hk
      have hre : alookup rest k0 = none := alookup_eq_none_of_not_mem_keys rest k0 hnd.1
      simp [hre, alookup, alookup_aset_self]
    · have hcons : alookup ((k0, v0) :: rest) n = alookup rest n := by
        simp only [alookup, if_neg hk]
      rw [hcons]
      cases hr : alookup rest n with
      | some v => rfl
      | none =>
        simp only []
        rw [alookup_aset_ne _ _ _ _ (fun hcon => hk hcon.symm)]

/-- C2 (amended): when every manifest entry is a plain repository entry (no
`site` key), no resolved zipball URL is the view-only placeholder, and every
record the first run wrote carries a `projectData.full_name` equal to its
manifest key, then a second run over the unchanged manifest and world — with
or without a configured URL shortener; a cache hit on a seeded entry returns
exactly the short URL a fresh resolution would compute — reproduces the
registry and the output document exactly and reports empty new, updated and
removed lists.  As written the claim fails: the diff keys the previous
registry by `projectData.full_name` but the new set by manifest name, so a
mismatch (e.g. differing case) makes the unchanged plugin appear as both new
and removed. -/
theorem c2_second_run_stable (m : List ManifestEntry) (w : World) (res1 : RunResult)
    (hsites : m.all (fun e => e.site.isNone) = true)
    (hzips : m.all (fun e => zipNotPlaceholder e w) = true)
    (h1 : run m none w = Outcome.ok res1)
    (hkeys : projKeysMatch res1.registry = true) :
    Outcome.map runView (run m (some res1.output) w) =
      Outcome.ok (res1.registry, [], [], [], res1.output) := by
  have hsite : ∀ e ∈ m, e.site = none := by
    intro e he
    exact Option.isNone_iff_eq_none.mp (List.all_eq_true.mp hsites e he)
  simp only [run, runSeeds] at h1
  cases hp1 : processEntries w [] m [] [] with
  | crash msg => rw [hp1] at h1; exact absurd h1 (by simp)
  | skip => rw [hp1] at h1; exact absurd h1 (by simp)
  | ok pr1 =>
    rw [hp1] at h1
    obtain ⟨allP, sub1⟩ := pr1
    injection h1 with h1
    subst h1
    simp only [projKeysMatch] at hkeys
    have hshape : ∀ p ∈ allP,
        getKey p.2 "lastUpdated" = some (.int (lastUpdatedOf p.2)) ∧
        (∃ pd fn, getKey p.2 "projectData" = some (.obj pd) ∧
          getKey pd "full_name" = some (.str fn)) ∧
        ((getKey p.2 "packageShortUrl" = some (.str placeholderUrl) ∧
          getKey p.2 "packageUrl" = some (.str placeholderUrl)) ∨
         (∃ u s, getKey p.2 "packageUrl" = some (.str u) ∧
           getKey p.2 "packageShortUrl" = some (.str s) ∧
           (s = "" ∨ (resolveShortUrl u [] w).1 = .ok s))) := by
      refine processEntries_mem_inv w [] _ ?_ m [] [] allP sub1 hsite hp1
        (by intro p hp; cases hp)
      intro e r s he hg
      exact getPluginJson_record_shape e w r s he hg
    have hnd : (allP.map Prod.fst).Nodup :=
      processEntries_keys_nodup w [] m [] [] allP sub1 hp1 (by simp)
    have hfull : ∀ p ∈ allP,
        getKey p.2 "lastUpdated" = some (.int (lastUpdatedOf p.2)) ∧
        ∃ pd, getKey p.2 "projectData" = some (.obj pd) ∧
          getKey pd "full_name" = some (.str p.1) := by
      intro p hp
      obtain ⟨hlu, ⟨pd, fn, hpd, hfn⟩, _⟩ := hshape p hp
      have hb := List.all_eq_true.mp hkeys p hp
      simp only [hpd, hfn] at hb
      have hfe : fn = p.1 := eq_of_beq hb
      subst hfe
      exact ⟨hlu, pd, hpd, hfn⟩
    obtain ⟨cache2, hc2eq, hc2⟩ := seedShortUrls_shape w (allP.map Prod.snd) []
      (by
        intro q hq
        obtain ⟨p, hp, hpq⟩ := List.mem_map.mp hq
        obtain ⟨_, _, h3⟩ := hshape p hp
        exact hpq ▸ h3)
      (by intro z s' hz; simp [alookup] at hz)
    have holdeq := seedOldPlugins_eq allP [] hfull
    have hlook : ∀ n,
        alookup (allP.foldl (fun a p => aset a p.1 (lastUpdatedOf p.2)) []) n =
          match alookup allP n with
          | some v => some (lastUpdatedOf v)
          | none => (none : Option Int) := by
      intro n
      rw [alookup_foldl_aset (fun v => lastUpdatedOf v) allP [] hnd n]
      cases alookup allP n <;> rfl
    have hstab : ∀ e ∈ m, (getPluginJson e cache2 w).1 = (getPluginJson e [] w).1 := by
      intro e he
      refine getPluginJson_fst_congr e w cache2 [] (hsite e he) ?_
      intro c1 z h1c hz
      have hzb := List.all_eq_true.mp hzips e he
      simp only [zipNotPlaceholder, h1c] at hzb
      rw [hz] at hzb
      have hzne : z ≠ placeholderUrl := by
        intro hcon
        subst hcon
        simp at hzb
      cases hzl : alookup cache2 z with
      | none =>
        have hmiss : resolveShortUrl z cache2 w = resolveShortUrl z [] w := by
          simp only [resolveShortUrl, hzl, alookup]
        rw [hmiss]
      | some s' =>
        rcases hc2 z s' hzl with ⟨hzp, _⟩ | hres
        · exact absurd hzp hzne
        · have hhit : resolveShortUrl z cache2 w = (.ok s', []) := by
            simp only [resolveShortUrl, hzl]
          rw [hhit, hres]
    have hmap := processEntries_fst_congr2 w cache2 [] m hstab [] [] []
    rw [hp1] at hmap
    cases hp2 : processEntries w cache2 m [] [] with
    | crash msg => rw [hp2] at hmap; exact absurd hmap (by simp [Outcome.map])
    | skip => rw [hp2] at hmap; exact absurd hmap (by simp [Outcome.map])
    | ok pr2 =>
      rw [hp2] at hmap
      obtain ⟨allP2, sub2⟩ := pr2
      simp only [Outcome.map] at hmap
      injection hmap with hmap
      replace hmap := hmap.symm
      subst hmap
      show Outcome.map runView (run m (some (allP.map Prod.snd)) w) = _
      simp only [run, runSeeds, hc2eq, holdeq, hp2]
      simp only [Outcome.map, runView]
      have hnew : (diffRegistry allP
          (allP.foldl (fun a p => aset a p.1 (lastUpdatedOf p.2)) [])).1 = [] := by
        have hfold := diff_fold_eq
          (allP.foldl (fun a p => aset a p.1 (lastUpdatedOf p.2)) []) allP ([], [])
        simp only [diffRegistry, hfold, List.nil_append]
        rw [List.map_eq_nil_iff, List.filter_eq_nil_iff]
        intro x hx
        have hax := alookup_of_mem_nodup allP hnd x.1 x.2 hx
        simp [hlook x.1, hax]
      have hupd : (diffRegistry allP
          (allP.foldl (fun a p => aset a p.1 (lastUpdatedOf p.2)) [])).2.1 = [] := by
        have hfold := diff_fold_eq
          (allP.foldl (fun a p => aset a p.1 (lastUpdatedOf p.2)) []) allP ([], [])
        simp only [diffRegistry, hfold, List.nil_append]
        rw [List.map_eq_nil_iff, List.filter_eq_nil_iff]
        intro x hx
        have hax := alookup_of_mem_nodup allP hnd x.1 x.2 hx
        simp [hlook x.1, hax]
      have hrem : (diffRegistry allP
          (allP.foldl (fun a p => aset a p.1 (lastUpdatedOf p.2)) [])).2.2 = [] := by
        simp only [diffRegistry]
        rw [List.filter_eq_nil_iff]
        intro n hn
        have hsome := alookup_isSome_of_mem_keys _ n hn
        rw [hlook n] at hsome
        cases ha : alookup allP n with
        | none => rw [ha] at hsome; simp at hsome
        | some v =>
          have hmem : n ∈ allP.map Prod.fst :=
            mem_keys_of_alookup_isSome allP n (by rw [ha]; rfl)
          have hcon := (list_contains_iff (allP.map Prod.fst) n).mpr hmem
          simp only [hcon, Bool.not_true, Bool.false_eq_true, not_false_eq_true]
      rw [hnew, hupd, hrem]

theorem c2_witness :
    Outcome.map runView (run [eShared1] (some resShared1.output) wShared) =
      Outcome.ok (resShared1.registry, [], [], [], resShared1.output) :=
  c2_second_run_stable [eShared1] wShared resShared1 rfl rfl rfl rfl

/-- C2, counterexample to the spec as written: the manifest entry `a/b` whose
repository reports `full_name = "A/b"` resolves identically on both runs, yet
the second run lists it as new and its previous incarnation as removed,
because the diff keys the previous registry by `projectData.full_name` and the
new set by manifest name. -/
theorem c2_counterexample :
    Outcome.map (fun r => (r.newPlugins, r.updatedPlugins, r.removedPlugins))
        (runTwice [eView] wMismatch)
      = Outcome.ok (["a/b"], [], ["A/b"]) := rfl

end GenerateIndex
